import Mathlib

/-!
Shallow embedding of the NeuroGrid lights-out engine (src/app/page.tsx).

Boards and matrix rows are `List Nat` with entries in {0,1}, indexed
row-major exactly as in the source; all arithmetic is `Nat.xor`/`Nat.land`,
mirroring the JavaScript `^` / `& 1` on 0/1-valued numbers.
-/

namespace NeuroGrid

/-- `const GRID_SIZE = 5`. -/
def GRID_SIZE : Nat := 5

/-- `const BOARD_CELLS = GRID_SIZE * GRID_SIZE`. -/
def BOARD_CELLS : Nat := GRID_SIZE * GRID_SIZE

/-- `const baseOffsets = [[0,0],[1,0],[-1,0],[0,1],[0,-1]]`. -/
def baseOffsets : List (Int × Int) := [(0, 0), (1, 0), (-1, 0), (0, 1), (0, -1)]

/-- `coordToIndex(row, col) = row * GRID_SIZE + col`. -/
def coordToIndex (row col : Nat) : Nat := row * GRID_SIZE + col

/-- `indexToCoord(index) = {row: ⌊index / GRID_SIZE⌋, col: index % GRID_SIZE}`. -/
def indexToCoord (index : Nat) : Nat × Nat := (index / GRID_SIZE, index % GRID_SIZE)

/-- Writing one entry of a row-major matrix, `matrix[r][c] = v`. -/
def set2d (m : List (List Nat)) (r c v : Nat) : List (List Nat) :=
  m.set r ((m.getD r []).set c v)

/-- `buildToggleMatrix()`: for every cell and every in-bounds offset,
`matrix[neighborIndex][idx] = 1`. -/
def buildToggleMatrix : List (List Nat) :=
  (List.range GRID_SIZE).foldl (fun m row =>
    (List.range GRID_SIZE).foldl (fun m col =>
      let idx := coordToIndex row col
      baseOffsets.foldl (fun m d =>
        let nr : Int := (row : Int) + d.1
        let nc : Int := (col : Int) + d.2
        if 0 ≤ nr && nr < (GRID_SIZE : Int) && 0 ≤ nc && nc < (GRID_SIZE : Int) then
          set2d m (coordToIndex nr.toNat nc.toNat) idx 1
        else m) m) m)
    (List.replicate BOARD_CELLS (List.replicate BOARD_CELLS 0))

/-- `const toggleMatrix = buildToggleMatrix()`. -/
def toggleMatrix : List (List Nat) := buildToggleMatrix

/-- The bounds check shared by `buildToggleMatrix` and `toggleCell`: the
index of the cell at offset `d` from `rc`, or `none` when it falls off the
grid. -/
def inBoundsIndex (rc : Nat × Nat) (d : Int × Int) : Option Nat :=
  let nr : Int := (rc.1 : Int) + d.1
  let nc : Int := (rc.2 : Int) + d.2
  if 0 ≤ nr && nr < (GRID_SIZE : Int) && 0 ≤ nc && nc < (GRID_SIZE : Int) then
    some (coordToIndex nr.toNat nc.toNat)
  else none

/-- One offset of the `toggleCell` loop:
`next[neighborIndex] = next[neighborIndex] ^ 1` when the offset cell is in
bounds. -/
def toggleStep (rc : Nat × Nat) (next : List Nat) (d : Int × Int) : List Nat :=
  match inBoundsIndex rc d with
  | some neighborIndex => next.set neighborIndex (next.getD neighborIndex 0 ^^^ 1)
  | none => next

/-- `toggleCell(board, index)`: copy the board, then flip the cell and each
in-bounds orthogonal neighbor. -/
def toggleCell (board : List Nat) (index : Nat) : List Nat :=
  baseOffsets.foldl (toggleStep (indexToCoord index)) board

/-- The in-bounds cells flipped by a toggle at `index` (self plus orthogonal
neighbors), in source offset order. -/
def neighborIndices (index : Nat) : List Nat :=
  baseOffsets.filterMap (inBoundsIndex (indexToCoord index))

/-- `isSolved(board) = board.every(v => v === 0)`. -/
def isSolved (board : List Nat) : Bool := board.all (fun v => v == 0)

/-- The state threaded through the elimination loop of
`gaussianEliminationGF2`: the working matrix and vector (the mutable copies),
the per-row pivot-column bookkeeping (`-1` = no pivot yet), and `currentRow`. -/
structure ElimState where
  matrix : List (List Nat)
  vector : List Nat
  pivotColumns : List Int
  currentRow : Nat

/-- Structural worker for the pivot search: the fuel is `rows - pivotRow`,
so the loop stops exactly when `pivotRow` reaches `rows`. -/
def findPivotAux (matrix : List (List Nat)) (col : Nat) : Nat → Nat → Nat
  | 0, pivotRow => pivotRow
  | fuel + 1, pivotRow =>
    if (matrix.getD pivotRow []).getD col 0 == 0 then
      findPivotAux matrix col fuel (pivotRow + 1)
    else pivotRow

/-- The `while (pivotRow < rows && matrix[pivotRow][col] === 0) pivotRow++`
search; returns `rows` when the column has no pivot at or below `pivotRow`. -/
def findPivotRow (matrix : List (List Nat)) (col rows pivotRow : Nat) : Nat :=
  findPivotAux matrix col (rows - pivotRow) pivotRow

/-- The destructuring swap `[a[i], a[j]] = [a[j], a[i]]` (both reads happen
before either write). -/
def swapAt (l : List α) (i j : Nat) (d : α) : List α :=
  (l.set i (l.getD j d)).set j (l.getD i d)

/-- The inner `for (k = col; k < cols; k++) target[k] ^= pivot[k]` loop:
entries before `col` are kept, entries from `col` on are xored with the
pivot row. -/
def xorFrom : Nat → List Nat → List Nat → List Nat
  | _, [], _ => []
  | 0, a :: t, p => (a ^^^ p.headD 0) :: xorFrom 0 t p.tail
  | n + 1, a :: t, p => a :: xorFrom n t p.tail

/-- The `for (row...)` loop that xors the pivot row into every other row
with a 1 in the pivot column (`r` is the index of the head of the list). -/
def clearRows (pivotVals : List Nat) (col currentRow : Nat) : Nat → List (List Nat) → List (List Nat)
  | _, [] => []
  | r, row :: rest =>
    (if r != currentRow && row.getD col 0 == 1 then xorFrom col row pivotVals else row)
      :: clearRows pivotVals col currentRow (r + 1) rest

/-- The matching `vector[row] ^= vector[currentRow]` updates; the condition
reads the (post-swap, pre-clear) matrix, exactly as the source loop does. -/
def clearVecRows (matrix : List (List Nat)) (col currentRow : Nat) (pivotVal : Nat) : Nat → List Nat → List Nat
  | _, [] => []
  | r, v :: rest =>
    (if r != currentRow && (matrix.getD r []).getD col 0 == 1 then v ^^^ pivotVal else v)
      :: clearVecRows matrix col currentRow pivotVal (r + 1) rest

/-- One iteration of the outer `for (col...)` loop of
`gaussianEliminationGF2` (a no-op once `currentRow` reaches `rows`,
matching the loop guard `currentRow < rows`). -/
def elimStep (rows : Nat) (st : ElimState) (col : Nat) : ElimState :=
  if st.currentRow < rows then
    let pivotRow := findPivotRow st.matrix col rows st.currentRow
    if pivotRow == rows then st
    else
      let m1 := if pivotRow != st.currentRow then swapAt st.matrix st.currentRow pivotRow [] else st.matrix
      let v1 := if pivotRow != st.currentRow then swapAt st.vector st.currentRow pivotRow 0 else st.vector
      let pv := st.pivotColumns.set st.currentRow (col : Int)
      ⟨clearRows (m1.getD st.currentRow []) col st.currentRow 0 m1,
       clearVecRows m1 col st.currentRow (v1.getD st.currentRow 0) 0 v1,
       pv, st.currentRow + 1⟩
  else st

/-- The whole elimination loop, columns left to right. -/
def runElimination (matrix : List (List Nat)) (vector : List Nat) (rows cols : Nat) : ElimState :=
  (List.range cols).foldl (elimStep rows) ⟨matrix, vector, List.replicate rows (-1), 0⟩

/-- The consistency scan: some row at or beyond `currentRow` is all zero
while its vector entry is 1. -/
def hasContradiction (matrix : List (List Nat)) (vector : List Nat) (currentRow rows : Nat) : Bool :=
  (List.range' currentRow (rows - currentRow)).any fun r =>
    (matrix.getD r []).all (fun v => v == 0) && vector.getD r 0 == 1

/-- The back-substitution accumulator:
`for (col = pivotCol+1; col < cols; col++) if (matrix[row][col] === 1) accum ^= solution[col]`. -/
def backAccum (rowVals solution : List Nat) (pivotCol cols start : Nat) : Nat :=
  (List.range' (pivotCol + 1) (cols - (pivotCol + 1))).foldl
    (fun acc col => if rowVals.getD col 0 == 1 then acc ^^^ solution.getD col 0 else acc) start

/-- The back-substitution loop, `row` from `currentRow - 1` down to 0
(the fuel argument is one more than the row being processed). -/
def backSubstitute (matrix : List (List Nat)) (vector : List Nat) (pivots : List Int) (cols : Nat) : Nat → List Nat → List Nat
  | 0, sol => sol
  | row + 1, sol =>
    let pc := pivots.getD row (-1)
    if pc < 0 then backSubstitute matrix vector pivots cols row sol
    else
      let pcn := pc.toNat
      let accum := backAccum (matrix.getD row []) sol pcn cols (vector.getD row 0)
      backSubstitute matrix vector pivots cols row (sol.set pcn (accum &&& 1))

/-- `gaussianEliminationGF2(inputMatrix, inputVector)`: eliminate on copies,
return `none` on an inconsistent system, otherwise back-substitute with free
variables fixed to 0. -/
def gaussianEliminationGF2 (inputMatrix : List (List Nat)) (inputVector : List Nat) : Option (List Nat) :=
  let rows := inputMatrix.length
  let cols := (inputMatrix.getD 0 []).length
  let st := runElimination inputMatrix inputVector rows cols
  if hasContradiction st.matrix st.vector st.currentRow rows then none
  else some (backSubstitute st.matrix st.vector st.pivotColumns cols st.currentRow (List.replicate cols 0))

/-- `computeSolution`'s sort comparator:
`(da - db) || (ca.row - cb.row) || (ca.col - cb.col)` with Manhattan
distances from the center `(GRID_SIZE - 1) / 2`. -/
def planCompare (a b : Nat) : Int :=
  let ca := indexToCoord a
  let cb := indexToCoord b
  let center : Int := ((GRID_SIZE : Int) - 1) / 2
  let da : Int := (((ca.1 : Int) - center).natAbs : Int) + (((ca.2 : Int) - center).natAbs : Int)
  let db : Int := (((cb.1 : Int) - center).natAbs : Int) + (((cb.2 : Int) - center).natAbs : Int)
  if da - db ≠ 0 then da - db
  else if (ca.1 : Int) - (cb.1 : Int) ≠ 0 then (ca.1 : Int) - (cb.1 : Int)
  else (ca.2 : Int) - (cb.2 : Int)

/-- `computeSolution(board)`: solve, keep the indices whose entry `& 1` is 1,
and sort them with `planCompare`. -/
def computeSolution (board : List Nat) : Option (List Nat) :=
  match gaussianEliminationGF2 toggleMatrix board with
  | none => none
  | some solutionVector =>
    some (((solutionVector.enum.filter (fun e => e.2 &&& 1 == 1)).map (fun e => e.1)).mergeSort
      (fun a b => planCompare a b ≤ 0))

/-- `interface GameSnapshot { board; moves }`. -/
structure GameSnapshot where
  board : List Nat
  moves : Nat
deriving DecidableEq

/-- `makeMove` (the `applyMove` entry point): unconditionally toggles at
`index` and increments the move counter — there is no bounds check. -/
def makeMove (current : GameSnapshot) (index : Nat) : GameSnapshot :=
  { board := toggleCell current.board index, moves := current.moves + 1 }

/-- `createPuzzle(randomSeed)`, with the floating-point sine hash abstracted:
`thresh i` stands for `|(sin(randomSeed + i*12.9898)*43758.5453) % 1| > 0.35`
and `forced` for `⌊|sin(randomSeed)*BOARD_CELLS|⌋`, both functions of the
seed alone; the structure (threshold loop over `iteration % BOARD_CELLS`,
then the forced `% BOARD_CELLS` toggle when no toggle was applied or the
board is already solved) is the source's. -/
def createPuzzle (thresh : Nat → Bool) (forced : Nat) : List Nat :=
  let start : List Nat × Nat := (List.replicate BOARD_CELLS 0, 0)
  let run := (List.range BOARD_CELLS).foldl
    (fun p iteration =>
      if thresh iteration then (toggleCell p.1 (iteration % BOARD_CELLS), p.2 + 1) else p)
    start
  if run.2 == 0 || isSolved run.1 then toggleCell run.1 (forced % BOARD_CELLS)
  else run.1

/-- The all-zero (solved) 5×5 board. -/
def zeroBoard : List Nat := List.replicate BOARD_CELLS 0

/-- Pointwise GF(2) sum of two equal-length bit vectors. -/
def xorVec (a b : List Nat) : List Nat := List.zipWith (fun x y => x ^^^ y) a b

/-- Every entry of the vector is a bit. -/
def entries01 (v : List Nat) : Prop := ∀ x ∈ v, x ≤ 1

/-- The board obtained from the all-zero board by the given toggle sequence. -/
def runToggles (l : List Nat) : List Nat := l.foldl toggleCell zeroBoard

/-- Apply `toggleCell` at every index whose entry in `sol` is 1 (ascending
index order; toggles commute, so any order gives the same board). -/
def applySolution (board sol : List Nat) : List Nat :=
  (List.range BOARD_CELLS).foldl
    (fun acc i => if sol.getD i 0 == 1 then toggleCell acc i else acc) board

/-- The net effect on the all-zero board of applying the toggles selected by
`sol`. -/
def solDelta (sol : List Nat) : List Nat :=
  (List.range BOARD_CELLS).foldl
    (fun acc i => if sol.getD i 0 == 1 then xorVec acc (toggleCell zeroBoard i) else acc) zeroBoard

/-- Checks one generator column: the solver succeeds on the board produced by
a single toggle at `i`, and the returned bit vector's toggles reproduce that
board. -/
def genCheck (i : Nat) : Bool :=
  match gaussianEliminationGF2 toggleMatrix (toggleCell zeroBoard i) with
  | some x => x.length == BOARD_CELLS && x.all (fun v => v ≤ 1) && solDelta x == toggleCell zeroBoard i
  | none => false

/-- The grid center used by the plan comparator, `(GRID_SIZE - 1) / 2`. -/
def centerCoord : Int := ((GRID_SIZE : Int) - 1) / 2

/-- Manhattan distance of a cell from the grid center. -/
def manhattanDist (a : Nat) : Int :=
  ((((indexToCoord a).1 : Int) - centerCoord).natAbs : Int) +
    ((((indexToCoord a).2 : Int) - centerCoord).natAbs : Int)

/-- The ordering the spec demands of a plan: strictly closer to the center
first; at equal distance, smaller row first; at equal row, smaller column
first. -/
def planLE (a b : Nat) : Prop :=
  manhattanDist a < manhattanDist b ∨
    (manhattanDist a = manhattanDist b ∧
      ((indexToCoord a).1 < (indexToCoord b).1 ∨
        ((indexToCoord a).1 = (indexToCoord b).1 ∧ (indexToCoord a).2 ≤ (indexToCoord b).2)))

/-- The value `buildToggleMatrix` computes, spelled out (proved equal to
`toggleMatrix` below; used to keep concrete evaluations cheap). -/
def toggleMatrixData : List (List Nat) :=
  [[1, 1, 0, 0, 0, 1, 0, 0, 0, 0, 0, 0, 0, 0, 0, 0, 0, 0, 0, 0, 0, 0, 0, 0, 0],
   [1, 1, 1, 0, 0, 0, 1, 0, 0, 0, 0, 0, 0, 0, 0, 0, 0, 0, 0, 0, 0, 0, 0, 0, 0],
   [0, 1, 1, 1, 0, 0, 0, 1, 0, 0, 0, 0, 0, 0, 0, 0, 0, 0, 0, 0, 0, 0, 0, 0, 0],
   [0, 0, 1, 1, 1, 0, 0, 0, 1, 0, 0, 0, 0, 0, 0, 0, 0, 0, 0, 0, 0, 0, 0, 0, 0],
   [0, 0, 0, 1, 1, 0, 0, 0, 0, 1, 0, 0, 0, 0, 0, 0, 0, 0, 0, 0, 0, 0, 0, 0, 0],
   [1, 0, 0, 0, 0, 1, 1, 0, 0, 0, 1, 0, 0, 0, 0, 0, 0, 0, 0, 0, 0, 0, 0, 0, 0],
   [0, 1, 0, 0, 0, 1, 1, 1, 0, 0, 0, 1, 0, 0, 0, 0, 0, 0, 0, 0, 0, 0, 0, 0, 0],
   [0, 0, 1, 0, 0, 0, 1, 1, 1, 0, 0, 0, 1, 0, 0, 0, 0, 0, 0, 0, 0, 0, 0, 0, 0],
   [0, 0, 0, 1, 0, 0, 0, 1, 1, 1, 0, 0, 0, 1, 0, 0, 0, 0, 0, 0, 0, 0, 0, 0, 0],
   [0, 0, 0, 0, 1, 0, 0, 0, 1, 1, 0, 0, 0, 0, 1, 0, 0, 0, 0, 0, 0, 0, 0, 0, 0],
   [0, 0, 0, 0, 0, 1, 0, 0, 0, 0, 1, 1, 0, 0, 0, 1, 0, 0, 0, 0, 0, 0, 0, 0, 0],
   [0, 0, 0, 0, 0, 0, 1, 0, 0, 0, 1, 1, 1, 0, 0, 0, 1, 0, 0, 0, 0, 0, 0, 0, 0],
   [0, 0, 0, 0, 0, 0, 0, 1, 0, 0, 0, 1, 1, 1, 0, 0, 0, 1, 0, 0, 0, 0, 0, 0, 0],
   [0, 0, 0, 0, 0, 0, 0, 0, 1, 0, 0, 0, 1, 1, 1, 0, 0, 0, 1, 0, 0, 0, 0, 0, 0],
   [0, 0, 0, 0, 0, 0, 0, 0, 0, 1, 0, 0, 0, 1, 1, 0, 0, 0, 0, 1, 0, 0, 0, 0, 0],
   [0, 0, 0, 0, 0, 0, 0, 0, 0, 0, 1, 0, 0, 0, 0, 1, 1, 0, 0, 0, 1, 0, 0, 0, 0],
   [0, 0, 0, 0, 0, 0, 0, 0, 0, 0, 0, 1, 0, 0, 0, 1, 1, 1, 0, 0, 0, 1, 0, 0, 0],
   [0, 0, 0, 0, 0, 0, 0, 0, 0, 0, 0, 0, 1, 0, 0, 0, 1, 1, 1, 0, 0, 0, 1, 0, 0],
   [0, 0, 0, 0, 0, 0, 0, 0, 0, 0, 0, 0, 0, 1, 0, 0, 0, 1, 1, 1, 0, 0, 0, 1, 0],
   [0, 0, 0, 0, 0, 0, 0, 0, 0, 0, 0, 0, 0, 0, 1, 0, 0, 0, 1, 1, 0, 0, 0, 0, 1],
   [0, 0, 0, 0, 0, 0, 0, 0, 0, 0, 0, 0, 0, 0, 0, 1, 0, 0, 0, 0, 1, 1, 0, 0, 0],
   [0, 0, 0, 0, 0, 0, 0, 0, 0, 0, 0, 0, 0, 0, 0, 0, 1, 0, 0, 0, 1, 1, 1, 0, 0],
   [0, 0, 0, 0, 0, 0, 0, 0, 0, 0, 0, 0, 0, 0, 0, 0, 0, 1, 0, 0, 0, 1, 1, 1, 0],
   [0, 0, 0, 0, 0, 0, 0, 0, 0, 0, 0, 0, 0, 0, 0, 0, 0, 0, 1, 0, 0, 0, 1, 1, 1],
   [0, 0, 0, 0, 0, 0, 0, 0, 0, 0, 0, 0, 0, 0, 0, 0, 0, 0, 0, 1, 0, 0, 0, 1, 1]]

/-! ### Heap model of `gaussianEliminationGF2` for the frame property

The source mutates JavaScript arrays; to state that the caller's arrays are
untouched we model array references explicitly: a `Store` maps references
(allocated in order) to array contents, the input matrix is a list of row
references plus a vector reference, and lines 57–58 of the source
(`inputMatrix.map(row => [...row])`, `[...inputVector]`) become fresh
allocations holding copies. -/

/-- A heap of array cells: `next` is the next fresh reference. -/
structure Store where
  next : Nat
  mem : Nat → List Nat

/-- Dereference. -/
def readRef (s : Store) (r : Nat) : List Nat := s.mem r

/-- In-place update of the array behind `r`. -/
def writeRef (s : Store) (r : Nat) (v : List Nat) : Store :=
  ⟨s.next, fun q => if q = r then v else s.mem q⟩

/-- Allocate a fresh array cell holding `v`. -/
def allocRef (s : Store) (v : List Nat) : Store × Nat :=
  (⟨s.next + 1, fun q => if q = s.next then v else s.mem q⟩, s.next)

/-- `inputMatrix.map(row => [...row])`: allocate a fresh copy of every row. -/
def allocCopies : Store → List Nat → Store × List Nat
  | s, [] => (s, [])
  | s, r :: rest =>
    let p := allocRef s (readRef s r)
    let q := allocCopies p.1 rest
    (q.1, p.2 :: q.2)

/-- Materialize the working matrix contents behind a list of row references. -/
def readMatrix (s : Store) (rowRefs : List Nat) : List (List Nat) :=
  rowRefs.map (readRef s)

/-- Elimination state in the heap model: the store, the working outer array
of row references, the working vector's reference, and the same bookkeeping
as `ElimState`. -/
structure HElimState where
  store : Store
  rowRefs : List Nat
  vecRef : Nat
  pivotColumns : List Int
  currentRow : Nat

/-- One row of the clearing loop in the heap model: conditionally overwrite
the row's array and the vector entry in place. -/
def hClearStep (col currentRow : Nat) (rowRefs : List Nat) (vecRef : Nat) (s : Store) (r : Nat) : Store :=
  if r != currentRow && (readRef s (rowRefs.getD r 0)).getD col 0 == 1 then
    let s1 := writeRef s (rowRefs.getD r 0)
      (xorFrom col (readRef s (rowRefs.getD r 0)) (readRef s (rowRefs.getD currentRow 0)))
    let v := readRef s1 vecRef
    writeRef s1 vecRef (v.set r (v.getD r 0 ^^^ v.getD currentRow 0))
  else s

/-- One column of the elimination loop in the heap model: swapping rows swaps
references in the outer array, swapping vector entries writes the vector's
array. -/
def hElimStep (rows : Nat) (st : HElimState) (col : Nat) : HElimState :=
  if st.currentRow < rows then
    let pivotRow := findPivotRow (readMatrix st.store st.rowRefs) col rows st.currentRow
    if pivotRow == rows then st
    else
      let rowRefs1 := if pivotRow != st.currentRow then swapAt st.rowRefs st.currentRow pivotRow 0 else st.rowRefs
      let s1 := if pivotRow != st.currentRow then
          writeRef st.store st.vecRef (swapAt (readRef st.store st.vecRef) st.currentRow pivotRow 0)
        else st.store
      let pv := st.pivotColumns.set st.currentRow ((col : Nat) : Int)
      let s2 := (List.range rows).foldl (hClearStep col st.currentRow rowRefs1 st.vecRef) s1
      ⟨s2, rowRefs1, st.vecRef, pv, st.currentRow + 1⟩
  else st

/-- `gaussianEliminationGF2` over the heap model: copy the caller's rows and
vector into fresh cells, eliminate in place on the copies, then run the
consistency scan and back-substitution (which only read). Returns the final
store and the result. -/
def gaussianEliminationGF2Heap (s : Store) (inputRowRefs : List Nat) (inputVecRef : Nat) : Store × Option (List Nat) :=
  let rows := inputRowRefs.length
  let p1 := allocCopies s inputRowRefs
  let p2 := allocRef p1.1 (readRef p1.1 inputVecRef)
  let cols := (readRef p2.1 (p1.2.getD 0 0)).length
  let fin := (List.range cols).foldl (hElimStep rows) ⟨p2.1, p1.2, p2.2, List.replicate rows (-1), 0⟩
  let m := readMatrix fin.store fin.rowRefs
  let v := readRef fin.store fin.vecRef
  if hasContradiction m v fin.currentRow rows then (fin.store, none)
  else (fin.store, some (backSubstitute m v fin.pivotColumns cols fin.currentRow (List.replicate cols 0)))

/-! ## Basic list and vector lemmas -/

theorem getD_le_one {v : List Nat} (h : entries01 v) (k : Nat) : v.getD k 0 ≤ 1 := by
  rcases Nat.lt_or_ge k v.length with hk | hk
  · rw [List.getD_eq_getElem _ _ hk]
    exact h _ (List.getElem_mem hk)
  · rw [List.getD_eq_default _ _ hk]
    exact Nat.zero_le 1

theorem xor_le_one {a b : Nat} (ha : a ≤ 1) (hb : b ≤ 1) : a ^^^ b ≤ 1 := by
  interval_cases a <;> interval_cases b <;> decide

theorem list_ext_getD {a b : List Nat} (hl : a.length = b.length)
    (h : ∀ j < a.length, a.getD j 0 = b.getD j 0) : a = b := by
  apply List.ext_getElem hl
  intro n h1 h2
  have hn := h n h1
  rwa [List.getD_eq_getElem _ _ h1, List.getD_eq_getElem _ _ h2] at hn

theorem getD_set_self {l : List Nat} {k : Nat} (v : Nat) (h : k < l.length) :
    (l.set k v).getD k 0 = v := by
  rw [List.getD_eq_getElem _ _ (by simpa using h)]
  exact List.getElem_set_self _

theorem getD_set_ne {l : List Nat} {k j : Nat} (v : Nat) (h : k ≠ j) :
    (l.set k v).getD j 0 = l.getD j 0 := by
  rw [List.getD_eq_getElem?_getD, List.getD_eq_getElem?_getD, List.getElem?_set_ne h]

theorem xorVec_length {a b : List Nat} (h : a.length = b.length) :
    (xorVec a b).length = a.length := by
  simp [xorVec, h]

theorem xorVec_getD {a b : List Nat} (h : a.length = b.length) (j : Nat) :
    (xorVec a b).getD j 0 = a.getD j 0 ^^^ b.getD j 0 := by
  rcases Nat.lt_or_ge j a.length with hj | hj
  · rw [List.getD_eq_getElem _ _ (by simp [xorVec, h]; omega),
      List.getD_eq_getElem _ _ hj, List.getD_eq_getElem _ _ (h ▸ hj)]
    simp [xorVec]
  · rw [List.getD_eq_default _ _ (by simp [xorVec]; omega),
      List.getD_eq_default _ _ hj, List.getD_eq_default _ _ (h ▸ hj)]
    rfl

theorem xorVec_entries01 {a b : List Nat} (ha : entries01 a) (hb : entries01 b) :
    entries01 (xorVec a b) := by
  intro x hx
  simp only [xorVec, List.mem_iff_getElem] at hx
  obtain ⟨n, hn, rfl⟩ := hx
  rw [List.getElem_zipWith]
  exact xor_le_one (ha _ (List.getElem_mem _)) (hb _ (List.getElem_mem _))

/-! ## Pointwise description of `toggleCell` -/

theorem toggleStep_length (rc : Nat × Nat) (b : List Nat) (d : Int × Int) :
    (toggleStep rc b d).length = b.length := by
  unfold toggleStep
  cases inBoundsIndex rc d <;> simp

theorem foldl_toggleStep_length (offs : List (Int × Int)) (rc : Nat × Nat) :
    ∀ b : List Nat, (offs.foldl (toggleStep rc) b).length = b.length := by
  induction offs with
  | nil => intro b; rfl
  | cons d rest ih => intro b; rw [List.foldl_cons, ih, toggleStep_length]

theorem toggleCell_length (b : List Nat) (i : Nat) : (toggleCell b i).length = b.length :=
  foldl_toggleStep_length baseOffsets (indexToCoord i) b

theorem toggleStep_entries01 {b : List Nat} (rc : Nat × Nat) (d : Int × Int)
    (h : entries01 b) : entries01 (toggleStep rc b d) := by
  unfold toggleStep
  cases hd : inBoundsIndex rc d with
  | none => exact h
  | some k =>
    intro x hx
    rcases List.mem_or_eq_of_mem_set hx with hx | rfl
    · exact h x hx
    · exact xor_le_one (getD_le_one h k) (le_refl 1)

theorem foldl_toggleStep_entries01 (offs : List (Int × Int)) (rc : Nat × Nat) :
    ∀ b : List Nat, entries01 b → entries01 (offs.foldl (toggleStep rc) b) := by
  induction offs with
  | nil => intro b h; exact h
  | cons d rest ih => intro b h; exact ih _ (toggleStep_entries01 rc d h)

theorem toggleCell_entries01 {b : List Nat} (i : Nat) (h : entries01 b) :
    entries01 (toggleCell b i) :=
  foldl_toggleStep_entries01 baseOffsets (indexToCoord i) b h

theorem foldl_toggleStep_getD (rc : Nat × Nat) :
    ∀ (offs : List (Int × Int)) (b : List Nat),
      (offs.filterMap (inBoundsIndex rc)).Nodup →
      (∀ k ∈ offs.filterMap (inBoundsIndex rc), k < b.length) →
      ∀ j, (offs.foldl (toggleStep rc) b).getD j 0
        = b.getD j 0 ^^^ (if j ∈ offs.filterMap (inBoundsIndex rc) then 1 else 0) := by
  intro offs
  induction offs with
  | nil => intro b _ _ j; simp
  | cons d rest ih =>
    intro b hnd hb j
    rw [List.foldl_cons]
    cases hd : inBoundsIndex rc d with
    | none =>
      have hstep : toggleStep rc b d = b := by unfold toggleStep; rw [hd]
      have hfm : (d :: rest).filterMap (inBoundsIndex rc) = rest.filterMap (inBoundsIndex rc) := by
        rw [List.filterMap_cons, hd]
      rw [hfm] at hnd hb
      rw [hstep, hfm]
      exact ih b hnd hb j
    | some k =>
      have hfm : (d :: rest).filterMap (inBoundsIndex rc) = k :: rest.filterMap (inBoundsIndex rc) := by
        rw [List.filterMap_cons, hd]
      rw [hfm] at hnd hb ⊢
      have hk : k < b.length := hb k (List.mem_cons_self _ _)
      have hnd' := (List.nodup_cons.mp hnd).2
      have hknotin := (List.nodup_cons.mp hnd).1
      have hstep : toggleStep rc b d = b.set k (b.getD k 0 ^^^ 1) := by
        unfold toggleStep; rw [hd]
      rw [hstep]
      have hlen : (b.set k (b.getD k 0 ^^^ 1)).length = b.length := List.length_set ..
      have hb' : ∀ q ∈ rest.filterMap (inBoundsIndex rc), q < (b.set k (b.getD k 0 ^^^ 1)).length := by
        intro q hq
        rw [hlen]
        exact hb q (List.mem_cons_of_mem _ hq)
      rw [ih _ hnd' hb' j]
      by_cases hjk : j = k
      · subst hjk
        have : j ∉ rest.filterMap (inBoundsIndex rc) := hknotin
        rw [if_neg this, if_pos (List.mem_cons_self _ _), getD_set_self _ hk, Nat.xor_zero]
      · rw [getD_set_ne _ (fun h => hjk h.symm)]
        have : (j ∈ k :: rest.filterMap (inBoundsIndex rc)) ↔ j ∈ rest.filterMap (inBoundsIndex rc) := by
          simp [List.mem_cons, hjk]
        by_cases hjm : j ∈ rest.filterMap (inBoundsIndex rc)
        · rw [if_pos hjm, if_pos (this.mpr hjm)]
        · rw [if_neg hjm, if_neg (fun hmem => hjm (this.mp hmem))]

theorem toggleCell_getD {b : List Nat} {i : Nat}
    (hnd : (neighborIndices i).Nodup) (hb : ∀ k ∈ neighborIndices i, k < b.length) (j : Nat) :
    (toggleCell b i).getD j 0 = b.getD j 0 ^^^ (if j ∈ neighborIndices i then 1 else 0) :=
  foldl_toggleStep_getD (indexToCoord i) baseOffsets b hnd hb j

/-- `neighborIndices` facts for every index that the claims touch (0–25):
the flipped cells are distinct and in range. -/
theorem neighborIndices_facts :
    ∀ i : Fin 26, (neighborIndices (i : Nat)).Nodup ∧ ∀ k ∈ neighborIndices (i : Nat), k < 25 := by
  decide

/-- An in-range toggle always flips the toggled cell itself. -/
theorem self_mem_neighborIndices : ∀ i : Fin 25, (i : Nat) ∈ neighborIndices (i : Nat) := by
  decide

/-- **C5**: for every board of length N = 25 and every index in [0, N),
applying `toggleCell` twice at the same index restores the original board
(toggle is self-inverse). -/
theorem toggleCell_self_inverse (b : List Nat) (i : Nat)
    (hb : b.length = BOARD_CELLS) (hi : i < BOARD_CELLS) :
    toggleCell (toggleCell b i) i = b := by
  have hb25 : b.length = 25 := hb
  have hi26 : i < 26 := by omega
  obtain ⟨hnd, hlt⟩ := neighborIndices_facts ⟨i, hi26⟩
  have hbb : ∀ k ∈ neighborIndices i, k < b.length := fun k hk => by
    rw [hb25]; exact hlt k hk
  have hbb2 : ∀ k ∈ neighborIndices i, k < (toggleCell b i).length := fun k hk => by
    rw [toggleCell_length, hb25]; exact hlt k hk
  apply list_ext_getD (by rw [toggleCell_length, toggleCell_length])
  intro j hj
  rw [toggleCell_getD hnd hbb2 j, toggleCell_getD hnd hbb j, Nat.xor_assoc, Nat.xor_self,
    Nat.xor_zero]

/-- Witness for `toggleCell_self_inverse`: the center toggle on the all-zero
board, undone by a second center toggle. -/
theorem toggleCell_self_inverse_witness :
    zeroBoard.length = BOARD_CELLS ∧ 12 < BOARD_CELLS ∧
      toggleCell (toggleCell zeroBoard 12) 12 = zeroBoard :=
  ⟨by decide, by decide, toggleCell_self_inverse zeroBoard 12 (by decide) (by decide)⟩

/-- **C10**: `toggleCell` is total over all indices with no bounds check on
the index itself: on any length-25 bit board it returns a length-25 bit
board for every index, and at the out-of-range index 25 it flips the
in-bounds cell 20 (row 4, col 0), changing the board instead of failing. -/
theorem toggleCell_total_no_bounds_check (b : List Nat)
    (hb : b.length = BOARD_CELLS) (h01 : entries01 b) :
    (∀ i : Nat, (toggleCell b i).length = BOARD_CELLS ∧ entries01 (toggleCell b i)) ∧
      toggleCell b 25 = b.set 20 (b.getD 20 0 ^^^ 1) ∧ toggleCell b 25 ≠ b := by
  refine ⟨fun i => ⟨by rw [toggleCell_length]; exact hb, toggleCell_entries01 i h01⟩, rfl, ?_⟩
  intro hEq
  have h20 : (toggleCell b 25).getD 20 0 = b.getD 20 0 ^^^ 1 := by
    rw [show toggleCell b 25 = b.set 20 (b.getD 20 0 ^^^ 1) from rfl]
    exact getD_set_self _ (by rw [hb]; decide)
  rw [hEq] at h20
  have h2 : b.getD 20 0 ≤ 1 := getD_le_one h01 20
  interval_cases hv : (b.getD 20 0) <;> exact absurd h20 (by decide)

/-- Witness for `toggleCell_total_no_bounds_check` at the all-zero board
(sampling the universally quantified index at 7). -/
theorem toggleCell_total_no_bounds_check_witness :
    (zeroBoard.length = BOARD_CELLS ∧ entries01 zeroBoard) ∧
      ((toggleCell zeroBoard 7).length = BOARD_CELLS ∧ entries01 (toggleCell zeroBoard 7)) ∧
      toggleCell zeroBoard 25 = zeroBoard.set 20 (zeroBoard.getD 20 0 ^^^ 1) ∧
      toggleCell zeroBoard 25 ≠ zeroBoard :=
  ⟨⟨by decide, by unfold entries01; decide⟩,
   (toggleCell_total_no_bounds_check zeroBoard (by decide) (by unfold entries01; decide)).1 7,
   (toggleCell_total_no_bounds_check zeroBoard (by decide) (by unfold entries01; decide)).2.1,
   (toggleCell_total_no_bounds_check zeroBoard (by decide) (by unfold entries01; decide)).2.2⟩

/-- **C1** counterexample: `makeMove` (the `applyMove` entry point) at the
out-of-range index 25 on a 5×5 snapshot does *not* fail and does *not* leave
the snapshot unchanged — the board changes (cell 20 is flipped) and the move
counter increments. -/
theorem makeMove_25_mutates_snapshot :
    makeMove ⟨zeroBoard, 0⟩ 25 ≠ ⟨zeroBoard, 0⟩ ∧
      (makeMove ⟨zeroBoard, 0⟩ 25).board ≠ zeroBoard ∧
      (makeMove ⟨zeroBoard, 0⟩ 25).moves = 1 := by
  decide

/-- **C1** amended: `makeMove` performs no bounds check. For index 25 on the
5×5 grid it unconditionally applies `toggleCell`, whose per-neighbor bounds
check leaves only the in-bounds cell 20 flipped, and it increments the move
counter — the out-of-range index is partially applied, never rejected with
an error. -/
theorem makeMove_no_range_check (s : GameSnapshot) :
    makeMove s 25 = ⟨s.board.set 20 (s.board.getD 20 0 ^^^ 1), s.moves + 1⟩ ∧
      (makeMove s 25).moves ≠ s.moves := by
  refine ⟨rfl, ?_⟩
  intro h
  simp only [makeMove] at h
  omega

/-! ## The toggle matrix -/

set_option maxRecDepth 400000 in
/-- `buildToggleMatrix` computes exactly the spelled-out matrix. -/
theorem toggleMatrix_eq_data : toggleMatrix = toggleMatrixData := by decide

/-- **C6**: the toggle matrix of the 5×5 grid is symmetric, and the number
of set bits of row i is 3 when cell i is a corner, 4 when it is a non-corner
edge cell, and 5 when it is interior. -/
theorem toggleMatrix_symmetric_and_popcount :
    (∀ i j : Fin BOARD_CELLS,
        (toggleMatrix.getD i []).getD j 0 = (toggleMatrix.getD j []).getD i 0) ∧
      ∀ i : Fin BOARD_CELLS,
        ((toggleMatrix.getD i []).filter (fun v => v == 1)).length =
          if ((indexToCoord i).1 = 0 ∨ (indexToCoord i).1 = GRID_SIZE - 1) ∧
              ((indexToCoord i).2 = 0 ∨ (indexToCoord i).2 = GRID_SIZE - 1) then 3
          else if (indexToCoord i).1 = 0 ∨ (indexToCoord i).1 = GRID_SIZE - 1 ∨
              (indexToCoord i).2 = 0 ∨ (indexToCoord i).2 = GRID_SIZE - 1 then 4
          else 5 := by
  rw [toggleMatrix_eq_data]
  decide

/-! ## Concrete solver runs -/

set_option maxRecDepth 400000 in
/-- Solving the all-zero board yields the all-zero solution vector. -/
theorem solve_zeroBoard :
    gaussianEliminationGF2 toggleMatrix zeroBoard = some (List.replicate BOARD_CELLS 0) := by
  decide

set_option maxRecDepth 400000 in
/-- Solving the board produced by a center toggle yields the solution vector
supported exactly on index 12. -/
theorem solve_center_board :
    gaussianEliminationGF2 toggleMatrix (toggleCell zeroBoard 12) =
      some ((List.range BOARD_CELLS).map (fun j => if j = 12 then 1 else 0)) := by
  decide

/-- **C2**: toggling the center (index 12) of the all-zero 5×5 board sets
exactly the bits {7, 11, 12, 13, 17}, and the solver returns the solution
vector with exactly index 12 set to 1. -/
theorem center_toggle_and_solution :
    toggleCell zeroBoard 12 =
        (List.range BOARD_CELLS).map
          (fun j => if j ∈ ([7, 11, 12, 13, 17] : List Nat) then 1 else 0) ∧
      gaussianEliminationGF2 toggleMatrix (toggleCell zeroBoard 12) =
        some ((List.range BOARD_CELLS).map (fun j => if j = 12 then 1 else 0)) :=
  ⟨by decide, solve_center_board⟩

/-- **C8**: on the all-zero (solved) board the solver returns the all-zero
solution vector and the plan is empty — `some []`, distinguished from the
`none` (no-solution) outcome — and `isSolved` holds. -/
theorem solved_board_empty_plan :
    gaussianEliminationGF2 toggleMatrix zeroBoard = some (List.replicate BOARD_CELLS 0) ∧
      computeSolution zeroBoard = some [] ∧ isSolved zeroBoard = true := by
  refine ⟨solve_zeroBoard, ?_, by decide⟩
  unfold computeSolution
  rw [solve_zeroBoard]
  show some ((((List.replicate BOARD_CELLS 0).enum.filter (fun e => e.2 &&& 1 == 1)).map
    (fun e => e.1)).mergeSort (fun a b => planCompare a b ≤ 0)) = some []
  rw [show (((List.replicate BOARD_CELLS 0).enum.filter (fun e => e.2 &&& 1 == 1)).map
    (fun e => e.1)) = ([] : List Nat) from by decide, List.mergeSort_nil]

/-! ## The puzzle generator (C4) -/

theorem zeroBoard_getD (j : Nat) : zeroBoard.getD j 0 = 0 := by
  rcases Nat.lt_or_ge j 25 with h | h
  · rw [List.getD_eq_getElem _ _ (by simpa [zeroBoard, BOARD_CELLS, GRID_SIZE] using h)]
    simp [zeroBoard]
  · rw [List.getD_eq_default _ _ (by simpa [zeroBoard, BOARD_CELLS, GRID_SIZE] using h)]

theorem isSolved_false_of_one {b : List Nat} {j : Nat} (hj : j < b.length)
    (h1 : b.getD j 0 = 1) : isSolved b = false := by
  rw [List.getD_eq_getElem _ _ hj] at h1
  cases hs : isSolved b
  · rfl
  · exfalso
    have := List.all_eq_true.mp hs _ (List.getElem_mem hj)
    rw [h1] at this
    exact absurd this (by decide)

theorem eq_zeroBoard_of_isSolved {b : List Nat} (hl : b.length = 25) (h : isSolved b = true) :
    b = zeroBoard := by
  show b = List.replicate BOARD_CELLS 0
  refine List.eq_replicate_iff.mpr ⟨by rw [hl]; rfl, fun x hx => ?_⟩
  have := List.all_eq_true.mp h x hx
  simpa using this

theorem toggle_zeroBoard_not_solved (i : Nat) (hi : i < 25) :
    isSolved (toggleCell zeroBoard i) = false := by
  have hmem := self_mem_neighborIndices ⟨i, hi⟩
  obtain ⟨hnd, hlt⟩ := neighborIndices_facts ⟨i, by omega⟩
  have hgd : (toggleCell zeroBoard i).getD i 0 = 1 := by
    rw [toggleCell_getD hnd
      (fun k hk => by rw [(by decide : zeroBoard.length = 25)]; exact hlt k hk) i,
      if_pos hmem, zeroBoard_getD]
    rfl
  exact isSolved_false_of_one
    (by rw [toggleCell_length, (by decide : zeroBoard.length = 25)]; exact hi) hgd

theorem puzzleLoop_count_le (thresh : Nat → Bool) :
    ∀ (L : List Nat) (p : List Nat × Nat),
      p.2 ≤ (L.foldl (fun p iteration =>
        if thresh iteration then (toggleCell p.1 (iteration % BOARD_CELLS), p.2 + 1) else p) p).2 := by
  intro L
  induction L with
  | nil => intro p; exact le_refl _
  | cons i rest ih =>
    intro p
    rw [List.foldl_cons]
    refine le_trans ?_ (ih _)
    by_cases h : thresh i
    · rw [if_pos h]; exact Nat.le_succ _
    · rw [if_neg h]

theorem puzzleLoop_fixed_of_count (thresh : Nat → Bool) :
    ∀ (L : List Nat) (p : List Nat × Nat),
      (L.foldl (fun p iteration =>
        if thresh iteration then (toggleCell p.1 (iteration % BOARD_CELLS), p.2 + 1) else p) p).2 = p.2 →
      L.foldl (fun p iteration =>
        if thresh iteration then (toggleCell p.1 (iteration % BOARD_CELLS), p.2 + 1) else p) p = p := by
  intro L
  induction L with
  | nil => intro p _; rfl
  | cons i rest ih =>
    intro p h
    rw [List.foldl_cons] at h ⊢
    by_cases ht : thresh i
    · exfalso
      rw [if_pos ht] at h
      have := puzzleLoop_count_le thresh rest (toggleCell p.1 (i % BOARD_CELLS), p.2 + 1)
      simp only [h] at this
      omega
    · rw [if_neg ht] at h ⊢
      exact ih p h

theorem puzzleLoop_length (thresh : Nat → Bool) :
    ∀ (L : List Nat) (p : List Nat × Nat), p.1.length = 25 →
      (L.foldl (fun p iteration =>
        if thresh iteration then (toggleCell p.1 (iteration % BOARD_CELLS), p.2 + 1) else p) p).1.length = 25 := by
  intro L
  induction L with
  | nil => intro p h; exact h
  | cons i rest ih =>
    intro p h
    rw [List.foldl_cons]
    by_cases ht : thresh i
    · rw [if_pos ht]; exact ih _ (by rw [toggleCell_length]; exact h)
    · rw [if_neg ht]; exact ih _ h

theorem afterLoop_not_solved (run : List Nat × Nat) (hlen : run.1.length = 25)
    (hzero : run.2 = 0 → run.1 = zeroBoard) (forced : Nat) :
    isSolved (if run.2 == 0 || isSolved run.1 then toggleCell run.1 (forced % BOARD_CELLS)
      else run.1) = false := by
  have hfm : forced % BOARD_CELLS < 25 := Nat.mod_lt _ (by decide)
  by_cases h : (run.2 == 0 || isSolved run.1) = true
  · rw [if_pos h]
    have hz : run.1 = zeroBoard := by
      rcases Bool.or_eq_true_iff.mp h with h1 | h2
      · exact hzero (by simpa using h1)
      · exact eq_zeroBoard_of_isSolved hlen h2
    rw [hz]
    exact toggle_zeroBoard_not_solved _ hfm
  · rw [if_neg h]
    simp only [Bool.or_eq_true, not_or, Bool.not_eq_true, beq_iff_eq] at h
    exact h.2

/-- **C4**: for every behavior of the (floating-point, seed-determined)
threshold hash and forced-index hash, `createPuzzle` never returns the
all-zero (solved) board: if the threshold loop applies no toggle or leaves
the board solved, the forced extra toggle makes it non-solved. Determinism
in the seed is immediate: both hashes are functions of the seed alone, and
`createPuzzle` is a pure function of them. -/
theorem createPuzzle_never_solved (thresh : Nat → Bool) (forced : Nat) :
    isSolved (createPuzzle thresh forced) = false := by
  show isSolved
    (if ((List.range BOARD_CELLS).foldl (fun p iteration =>
          if thresh iteration then (toggleCell p.1 (iteration % BOARD_CELLS), p.2 + 1) else p)
          (List.replicate BOARD_CELLS 0, 0)).2 == 0 ||
        isSolved ((List.range BOARD_CELLS).foldl (fun p iteration =>
          if thresh iteration then (toggleCell p.1 (iteration % BOARD_CELLS), p.2 + 1) else p)
          (List.replicate BOARD_CELLS 0, 0)).1 then
      toggleCell ((List.range BOARD_CELLS).foldl (fun p iteration =>
          if thresh iteration then (toggleCell p.1 (iteration % BOARD_CELLS), p.2 + 1) else p)
          (List.replicate BOARD_CELLS 0, 0)).1 (forced % BOARD_CELLS)
    else ((List.range BOARD_CELLS).foldl (fun p iteration =>
          if thresh iteration then (toggleCell p.1 (iteration % BOARD_CELLS), p.2 + 1) else p)
          (List.replicate BOARD_CELLS 0, 0)).1) = false
  refine afterLoop_not_solved _ (puzzleLoop_length thresh _ _ (by decide)) (fun hc => ?_) forced
  have := puzzleLoop_fixed_of_count thresh (List.range BOARD_CELLS)
    (List.replicate BOARD_CELLS 0, 0) (by rw [hc])
  rw [this]
  rfl

/-! ## The solution planner order (C7) -/

theorem planCompare_le_iff (a b : Nat) : planCompare a b ≤ 0 ↔ planLE a b := by
  unfold planCompare planLE manhattanDist centerCoord
  dsimp only
  split_ifs <;> constructor <;> intro h <;> omega

theorem planLE_trans {a b c : Nat} (h1 : planLE a b) (h2 : planLE b c) : planLE a c := by
  unfold planLE at h1 h2 ⊢
  omega

theorem planLE_total (a b : Nat) : planLE a b ∨ planLE b a := by
  unfold planLE
  omega

/-- **C7**: every plan `computeSolution` produces is sorted: non-decreasing
Manhattan distance from the grid center, with ties broken by non-decreasing
row and then non-decreasing column. -/
theorem computeSolution_plan_sorted (board p : List Nat)
    (h : computeSolution board = some p) : p.Pairwise planLE := by
  unfold computeSolution at h
  cases hg : gaussianEliminationGF2 toggleMatrix board with
  | none => rw [hg] at h; exact absurd h (by simp)
  | some sol =>
    rw [hg] at h
    have hp : ((sol.enum.filter (fun e => e.2 &&& 1 == 1)).map (fun e => e.1)).mergeSort
        (fun a b => planCompare a b ≤ 0) = p := by
      exact Option.some.inj h
    rw [← hp]
    have hs := @List.sorted_mergeSort Nat
      (fun a b : Nat => decide (planCompare a b ≤ 0))
      (fun a b c hab hbc => decide_eq_true
        ((planCompare_le_iff a c).mpr
          (planLE_trans ((planCompare_le_iff a b).mp (of_decide_eq_true hab))
            ((planCompare_le_iff b c).mp (of_decide_eq_true hbc)))))
      (fun a b => by
        rcases planLE_total a b with h | h
        · simp [decide_eq_true ((planCompare_le_iff a b).mpr h)]
        · simp [decide_eq_true ((planCompare_le_iff b a).mpr h)])
      ((sol.enum.filter (fun e => e.2 &&& 1 == 1)).map (fun e => e.1))
    exact hs.imp (fun hab => (planCompare_le_iff _ _).mp (of_decide_eq_true hab))

/-- `computeSolution` on the center-toggle board: the plan is exactly
`[12]`. -/
theorem computeSolution_center : computeSolution (toggleCell zeroBoard 12) = some [12] := by
  unfold computeSolution
  rw [solve_center_board]
  show some (((((List.range BOARD_CELLS).map (fun j => if j = 12 then 1 else 0)).enum.filter
    (fun e => e.2 &&& 1 == 1)).map (fun e => e.1)).mergeSort (fun a b => planCompare a b ≤ 0)) =
    some [12]
  rw [show ((((List.range BOARD_CELLS).map (fun j => if j = 12 then 1 else 0)).enum.filter
    (fun e => e.2 &&& 1 == 1)).map (fun e => e.1)) = ([12] : List Nat) from by decide,
    List.mergeSort_singleton]

/-- Witness for `computeSolution_plan_sorted` at the center-toggle board. -/
theorem computeSolution_plan_sorted_witness :
    computeSolution (toggleCell zeroBoard 12) = some [12] ∧ List.Pairwise planLE [12] :=
  ⟨computeSolution_center, computeSolution_plan_sorted _ _ computeSolution_center⟩

/-! ## Linearity of the elimination in the target vector (toward C3)

Pivot selection and all row operations of `gaussianEliminationGF2` depend
only on the matrix, never on the target vector; the vector undergoes the
same swaps and xors in every run. Hence running the solver on the pointwise
xor of two targets succeeds with the pointwise xor of the two solutions. -/

theorem swapAt_length (l : List α) (i j : Nat) (d : α) : (swapAt l i j d).length = l.length := by
  simp [swapAt]

theorem xor_rotate (x y z : Nat) : x ^^^ (y ^^^ z) = y ^^^ (x ^^^ z) := by
  rw [← Nat.xor_assoc, Nat.xor_comm x y, Nat.xor_assoc]

theorem findPivotAux_le (m : List (List Nat)) (col : Nat) :
    ∀ (fuel pr : Nat), findPivotAux m col fuel pr ≤ pr + fuel := by
  intro fuel
  induction fuel with
  | zero => intro pr; exact Nat.le_refl _
  | succ f ih =>
    intro pr
    unfold findPivotAux
    split
    · exact le_trans (ih (pr + 1)) (by omega)
    · omega

theorem findPivotRow_le (m : List (List Nat)) (col rows pr : Nat) (h : pr ≤ rows) :
    findPivotRow m col rows pr ≤ rows := by
  unfold findPivotRow
  have := findPivotAux_le m col (rows - pr) pr
  omega

theorem clearVecRows_length (m : List (List Nat)) (col cur pv : Nat) :
    ∀ (v : List Nat) (r : Nat), (clearVecRows m col cur pv r v).length = v.length := by
  intro v
  induction v with
  | nil => intro r; rfl
  | cons a t ih => intro r; simp only [clearVecRows, List.length_cons, ih]

theorem swapAt_entries01 {v : List Nat} (h : entries01 v) (i j : Nat) :
    entries01 (swapAt v i j 0) := by
  intro x hx
  unfold swapAt at hx
  rcases List.mem_or_eq_of_mem_set hx with hx | rfl
  · rcases List.mem_or_eq_of_mem_set hx with hx | rfl
    · exact h x hx
    · exact getD_le_one h j
  · exact getD_le_one h i

theorem clearVecRows_entries01 (m : List (List Nat)) (col cur : Nat) {pv : Nat} (hpv : pv ≤ 1) :
    ∀ (v : List Nat) (r : Nat), entries01 v → entries01 (clearVecRows m col cur pv r v) := by
  intro v
  induction v with
  | nil => intro r _ x hx; simp [clearVecRows] at hx
  | cons a t ih =>
    intro r he x hx
    have ha : a ≤ 1 := he a (List.mem_cons_self _ _)
    have ht : entries01 t := fun z hz => he z (List.mem_cons_of_mem _ hz)
    simp only [clearVecRows] at hx
    rcases List.mem_cons.mp hx with rfl | hx
    · by_cases hc : (r != cur && (m.getD r []).getD col 0 == 1) = true
      · rw [if_pos hc]; exact xor_le_one ha hpv
      · rw [if_neg hc]; exact ha
    · exact ih (r + 1) ht x hx

theorem getD_swapAt {l : List Nat} {i j : Nat} (hi : i < l.length) (hj : j < l.length) (k : Nat) :
    (swapAt l i j 0).getD k 0 =
      if k = j then l.getD i 0 else if k = i then l.getD j 0 else l.getD k 0 := by
  unfold swapAt
  by_cases hkj : k = j
  · subst hkj
    rw [getD_set_self _ (by rw [List.length_set]; exact hj), if_pos rfl]
  · rw [getD_set_ne _ (fun h => hkj h.symm), if_neg hkj]
    by_cases hki : k = i
    · subst hki
      rw [getD_set_self _ hi, if_pos rfl]
    · rw [getD_set_ne _ (fun h => hki h.symm), if_neg hki]

theorem swapAt_xorVec {v1 v2 : List Nat} (h : v1.length = v2.length) {i j : Nat}
    (hi : i < v1.length) (hj : j < v1.length) :
    swapAt (xorVec v1 v2) i j 0 = xorVec (swapAt v1 i j 0) (swapAt v2 i j 0) := by
  have hx : (xorVec v1 v2).length = v1.length := xorVec_length h
  have hsl : (swapAt v1 i j 0).length = (swapAt v2 i j 0).length := by
    rw [swapAt_length, swapAt_length]; exact h
  apply list_ext_getD
  · rw [swapAt_length, hx, xorVec_length hsl, swapAt_length]
  · intro k _
    rw [getD_swapAt (by rw [hx]; exact hi) (by rw [hx]; exact hj) k,
      xorVec_getD hsl k,
      getD_swapAt hi hj k,
      getD_swapAt (by rw [← h]; exact hi) (by rw [← h]; exact hj) k,
      xorVec_getD h i, xorVec_getD h j, xorVec_getD h k]
    split_ifs <;> rfl

theorem clearVecRows_xor (m : List (List Nat)) (col cur pv1 pv2 : Nat) :
    ∀ (v1 v2 : List Nat) (r : Nat), v1.length = v2.length →
      clearVecRows m col cur (pv1 ^^^ pv2) r (xorVec v1 v2)
        = xorVec (clearVecRows m col cur pv1 r v1) (clearVecRows m col cur pv2 r v2) := by
  intro v1
  induction v1 with
  | nil =>
    intro v2 r h
    have : v2 = [] := List.length_eq_zero.mp h.symm
    subst this
    rfl
  | cons a t ih =>
    intro v2 r h
    cases v2 with
    | nil => simp at h
    | cons b t2 =>
      have hlen : t.length = t2.length := by simpa using h
      show clearVecRows m col cur (pv1 ^^^ pv2) r ((a ^^^ b) :: xorVec t t2) = _
      simp only [clearVecRows, ih t2 (r + 1) hlen]
      by_cases hc : (r != cur && (m.getD r []).getD col 0 == 1) = true
      · rw [if_pos hc, if_pos hc, if_pos hc]
        show _ = (a ^^^ pv1 ^^^ (b ^^^ pv2)) :: xorVec _ _
        congr 1
        rw [Nat.xor_assoc a b, Nat.xor_assoc a pv1, xor_rotate b pv1 pv2]
      · rw [if_neg hc, if_neg hc, if_neg hc]
        rfl

theorem elimStep_proj (rows col : Nat) (st st' : ElimState)
    (hm : st.matrix = st'.matrix) (hp : st.pivotColumns = st'.pivotColumns)
    (hc : st.currentRow = st'.currentRow) :
    (elimStep rows st col).matrix = (elimStep rows st' col).matrix ∧
      (elimStep rows st col).pivotColumns = (elimStep rows st' col).pivotColumns ∧
      (elimStep rows st col).currentRow = (elimStep rows st' col).currentRow := by
  obtain ⟨m, v, pv, cur⟩ := st
  obtain ⟨m', v', pv', cur'⟩ := st'
  dsimp at hm hp hc
  subst hm; subst hp; subst hc
  unfold elimStep
  dsimp only
  split_ifs <;> exact ⟨rfl, rfl, rfl⟩

theorem elimStep_vec_length (rows col : Nat) (st : ElimState) :
    (elimStep rows st col).vector.length = st.vector.length := by
  obtain ⟨m, v, pv, cur⟩ := st
  unfold elimStep
  dsimp only
  split_ifs with h1 h2 h3
  · rfl
  · rw [clearVecRows_length, swapAt_length]
  · rw [clearVecRows_length]
  · rfl

theorem elimStep_entries01 (rows col : Nat) (st : ElimState) (h : entries01 st.vector) :
    entries01 (elimStep rows st col).vector := by
  obtain ⟨m, v, pv, cur⟩ := st
  unfold elimStep
  dsimp only at h ⊢
  split_ifs with h1 h2 h3
  · exact h
  · exact clearVecRows_entries01 _ _ _ (getD_le_one (swapAt_entries01 h _ _) _) _ _
      (swapAt_entries01 h _ _)
  · exact clearVecRows_entries01 _ _ _ (getD_le_one h _) _ _ h
  · exact h

theorem elimStep_vector_xor (rows col : Nat) (m : List (List Nat)) (pv : List Int) (cur : Nat)
    (v1 v2 : List Nat) (h1 : v1.length = rows) (h2 : v2.length = rows) :
    (elimStep rows ⟨m, xorVec v1 v2, pv, cur⟩ col).vector
      = xorVec (elimStep rows ⟨m, v1, pv, cur⟩ col).vector
        (elimStep rows ⟨m, v2, pv, cur⟩ col).vector := by
  have h12 : v1.length = v2.length := by omega
  unfold elimStep
  dsimp only
  split_ifs with hcur hpiv hswap
  · rfl
  · -- swap branch
    dsimp only
    have hPle : findPivotRow m col rows cur ≤ rows := findPivotRow_le m col rows cur (le_of_lt hcur)
    have hPlt : findPivotRow m col rows cur < rows := by
      have hne : findPivotRow m col rows cur ≠ rows := by simpa using hpiv
      omega
    rw [@swapAt_xorVec v1 v2 h12 cur (findPivotRow m col rows cur) (by omega) (by omega)]
    have hsl : (swapAt v1 cur (findPivotRow m col rows cur) 0).length
        = (swapAt v2 cur (findPivotRow m col rows cur) 0).length := by
      rw [swapAt_length, swapAt_length]; exact h12
    rw [xorVec_getD hsl cur]
    exact clearVecRows_xor _ col cur _ _ _ _ 0 hsl
  · dsimp only
    rw [xorVec_getD h12 cur]
    exact clearVecRows_xor _ col cur _ _ _ _ 0 h12
  · rfl

theorem elimFold_proj (rows : Nat) (L : List Nat) :
    ∀ (st st' : ElimState), st.matrix = st'.matrix → st.pivotColumns = st'.pivotColumns →
      st.currentRow = st'.currentRow →
      (L.foldl (elimStep rows) st).matrix = (L.foldl (elimStep rows) st').matrix ∧
        (L.foldl (elimStep rows) st).pivotColumns = (L.foldl (elimStep rows) st').pivotColumns ∧
        (L.foldl (elimStep rows) st).currentRow = (L.foldl (elimStep rows) st').currentRow := by
  induction L with
  | nil => intro st st' hm hp hc; exact ⟨hm, hp, hc⟩
  | cons col L ih =>
    intro st st' hm hp hc
    rw [List.foldl_cons, List.foldl_cons]
    obtain ⟨hm', hp', hc'⟩ := elimStep_proj rows col st st' hm hp hc
    exact ih _ _ hm' hp' hc'

theorem elimFold_vec_length (rows : Nat) (L : List Nat) :
    ∀ st : ElimState, (L.foldl (elimStep rows) st).vector.length = st.vector.length := by
  induction L with
  | nil => intro st; rfl
  | cons col L ih =>
    intro st
    rw [List.foldl_cons, ih, elimStep_vec_length]

theorem elimFold_entries01 (rows : Nat) (L : List Nat) :
    ∀ st : ElimState, entries01 st.vector → entries01 (L.foldl (elimStep rows) st).vector := by
  induction L with
  | nil => intro st h; exact h
  | cons col L ih =>
    intro st h
    rw [List.foldl_cons]
    exact ih _ (elimStep_entries01 rows col st h)

theorem elimFold_vector_xor (rows : Nat) (L : List Nat) :
    ∀ (m : List (List Nat)) (pv : List Int) (cur : Nat) (v1 v2 : List Nat),
      v1.length = rows → v2.length = rows →
      (L.foldl (elimStep rows) ⟨m, xorVec v1 v2, pv, cur⟩).vector
        = xorVec (L.foldl (elimStep rows) ⟨m, v1, pv, cur⟩).vector
          (L.foldl (elimStep rows) ⟨m, v2, pv, cur⟩).vector := by
  induction L with
  | nil => intro m pv cur v1 v2 _ _; rfl
  | cons col L ih =>
    intro m pv cur v1 v2 h1 h2
    rw [List.foldl_cons, List.foldl_cons, List.foldl_cons]
    have hx := elimStep_vector_xor rows col m pv cur v1 v2 h1 h2
    obtain ⟨hm1, hp1, hc1⟩ := elimStep_proj rows col ⟨m, xorVec v1 v2, pv, cur⟩ ⟨m, v1, pv, cur⟩ rfl rfl rfl
    obtain ⟨hm2, hp2, hc2⟩ := elimStep_proj rows col ⟨m, v2, pv, cur⟩ ⟨m, v1, pv, cur⟩ rfl rfl rfl
    have e3 : elimStep rows ⟨m, xorVec v1 v2, pv, cur⟩ col
        = ⟨(elimStep rows ⟨m, v1, pv, cur⟩ col).matrix,
           xorVec (elimStep rows ⟨m, v1, pv, cur⟩ col).vector
             (elimStep rows ⟨m, v2, pv, cur⟩ col).vector,
           (elimStep rows ⟨m, v1, pv, cur⟩ col).pivotColumns,
           (elimStep rows ⟨m, v1, pv, cur⟩ col).currentRow⟩ := by
      cases hst : elimStep rows ⟨m, xorVec v1 v2, pv, cur⟩ col
      rw [hst] at hx hm1 hp1 hc1
      dsimp at hx hm1 hp1 hc1 ⊢
      rw [hx, hm1, hp1, hc1]
    have e2 : elimStep rows ⟨m, v2, pv, cur⟩ col
        = ⟨(elimStep rows ⟨m, v1, pv, cur⟩ col).matrix,
           (elimStep rows ⟨m, v2, pv, cur⟩ col).vector,
           (elimStep rows ⟨m, v1, pv, cur⟩ col).pivotColumns,
           (elimStep rows ⟨m, v1, pv, cur⟩ col).currentRow⟩ := by
      cases hst : elimStep rows ⟨m, v2, pv, cur⟩ col
      rw [hst] at hm2 hp2 hc2
      dsimp at hm2 hp2 hc2 ⊢
      rw [hm2, hp2, hc2]
    rw [e3, e2]
    have hl1 : (elimStep rows ⟨m, v1, pv, cur⟩ col).vector.length = rows := by
      rw [elimStep_vec_length]; exact h1
    have hl2 : (elimStep rows ⟨m, v2, pv, cur⟩ col).vector.length = rows := by
      rw [elimStep_vec_length]; exact h2
    exact ih _ _ _ _ _ hl1 hl2

theorem hasContradiction_xor {m : List (List Nat)} {v1 v2 : List Nat} {cur rows : Nat}
    (hl : v1.length = v2.length) (e1 : entries01 v1) (e2 : entries01 v2)
    (h1 : hasContradiction m v1 cur rows = false) (h2 : hasContradiction m v2 cur rows = false) :
    hasContradiction m (xorVec v1 v2) cur rows = false := by
  unfold hasContradiction at h1 h2 ⊢
  rw [List.any_eq_false] at h1 h2 ⊢
  intro r hr
  have g1 := h1 r hr
  have g2 := h2 r hr
  simp only [Bool.and_eq_true, beq_iff_eq, not_and] at g1 g2 ⊢
  intro hA hB
  have b1 : v1.getD r 0 = 0 := by
    have hle := getD_le_one e1 r
    have := g1 hA
    omega
  have b2 : v2.getD r 0 = 0 := by
    have hle := getD_le_one e2 r
    have := g2 hA
    omega
  rw [xorVec_getD hl r, b1, b2] at hB
  exact absurd hB (by decide)

theorem foldAccum_xor (rowVals sol1 sol2 : List Nat) (hl : sol1.length = sol2.length) :
    ∀ (L : List Nat) (s1 s2 : Nat),
      L.foldl (fun acc col => if rowVals.getD col 0 == 1 then acc ^^^ (xorVec sol1 sol2).getD col 0 else acc) (s1 ^^^ s2)
        = (L.foldl (fun acc col => if rowVals.getD col 0 == 1 then acc ^^^ sol1.getD col 0 else acc) s1)
          ^^^ (L.foldl (fun acc col => if rowVals.getD col 0 == 1 then acc ^^^ sol2.getD col 0 else acc) s2) := by
  intro L
  induction L with
  | nil => intro s1 s2; rfl
  | cons c L ih =>
    intro s1 s2
    rw [List.foldl_cons, List.foldl_cons, List.foldl_cons]
    by_cases hc : (rowVals.getD c 0 == 1) = true
    · rw [if_pos hc, if_pos hc, if_pos hc, xorVec_getD hl c,
        show s1 ^^^ s2 ^^^ (sol1.getD c 0 ^^^ sol2.getD c 0)
            = (s1 ^^^ sol1.getD c 0) ^^^ (s2 ^^^ sol2.getD c 0) from by
          rw [Nat.xor_assoc s1 s2, Nat.xor_assoc s1 (sol1.getD c 0),
            xor_rotate s2 (sol1.getD c 0) (sol2.getD c 0)]]
      exact ih _ _
    · rw [if_neg hc, if_neg hc, if_neg hc]
      exact ih _ _

theorem backAccum_xor (rowVals sol1 sol2 : List Nat) (hl : sol1.length = sol2.length)
    (pc cols s1 s2 : Nat) :
    backAccum rowVals (xorVec sol1 sol2) pc cols (s1 ^^^ s2)
      = backAccum rowVals sol1 pc cols s1 ^^^ backAccum rowVals sol2 pc cols s2 := by
  unfold backAccum
  exact foldAccum_xor rowVals sol1 sol2 hl _ s1 s2

theorem set_xorVec {sol1 sol2 : List Nat} (h : sol1.length = sol2.length) (k x y : Nat) :
    (xorVec sol1 sol2).set k (x ^^^ y) = xorVec (sol1.set k x) (sol2.set k y) := by
  have hsl : (sol1.set k x).length = (sol2.set k y).length := by
    rw [List.length_set, List.length_set]; exact h
  apply list_ext_getD
  · rw [List.length_set, xorVec_length h, xorVec_length hsl, List.length_set]
  · intro j hj
    rw [List.length_set, xorVec_length h] at hj
    by_cases hjk : j = k
    · subst hjk
      rw [getD_set_self _ (by rw [xorVec_length h]; exact hj),
        xorVec_getD hsl j, getD_set_self _ hj, getD_set_self _ (by rw [← h]; exact hj)]
    · rw [getD_set_ne _ (fun hh => hjk hh.symm), xorVec_getD hsl j, xorVec_getD h j,
        getD_set_ne _ (fun hh => hjk hh.symm), getD_set_ne _ (fun hh => hjk hh.symm)]

theorem backSubstitute_xor (m : List (List Nat)) (pv : List Int) (cols : Nat) :
    ∀ (fuel : Nat) (v1 v2 sol1 sol2 : List Nat), v1.length = v2.length →
      sol1.length = sol2.length →
      backSubstitute m (xorVec v1 v2) pv cols fuel (xorVec sol1 sol2)
        = xorVec (backSubstitute m v1 pv cols fuel sol1)
          (backSubstitute m v2 pv cols fuel sol2) := by
  intro fuel
  induction fuel with
  | zero => intro v1 v2 sol1 sol2 _ _; rfl
  | succ row ih =>
    intro v1 v2 sol1 sol2 hv hs
    simp only [backSubstitute]
    by_cases hpc : pv.getD row (-1) < 0
    · rw [if_pos hpc, if_pos hpc, if_pos hpc]
      exact ih _ _ _ _ hv hs
    · rw [if_neg hpc, if_neg hpc, if_neg hpc]
      rw [xorVec_getD hv row, backAccum_xor _ _ _ hs, Nat.and_xor_distrib_right,
        set_xorVec hs]
      refine ih _ _ _ _ hv ?_
      rw [List.length_set, List.length_set]
      exact hs

theorem xorVec_replicate_zero (n : Nat) :
    xorVec (List.replicate n 0) (List.replicate n 0) = List.replicate n 0 := by
  induction n with
  | zero => rfl
  | succ n ih =>
    rw [List.replicate_succ]
    show (0 ^^^ 0) :: xorVec (List.replicate n 0) (List.replicate n 0) = 0 :: List.replicate n 0
    rw [ih]
    rfl

/-- Linearity of the solver in the target: if elimination succeeds on `b`
and on `c`, it succeeds on their pointwise xor with the pointwise xor of the
solutions. Pivot selection depends only on the matrix, so all three runs
perform identical row operations. -/
theorem gauss_linear (M : List (List Nat)) (b c x y : List Nat)
    (hb : b.length = M.length) (hc : c.length = M.length)
    (eb : entries01 b) (ec : entries01 c)
    (hx : gaussianEliminationGF2 M b = some x) (hy : gaussianEliminationGF2 M c = some y) :
    gaussianEliminationGF2 M (xorVec b c) = some (xorVec x y) := by
  unfold gaussianEliminationGF2 runElimination at hx hy ⊢
  dsimp only at hx hy ⊢
  set rows := M.length with hrows
  set cols := (M.getD 0 []).length with hcols
  set L := List.range cols with hLdef
  set pv0 : List Int := List.replicate rows (-1) with hpv0
  have hproj3 := elimFold_proj rows L ⟨M, xorVec b c, pv0, 0⟩ ⟨M, b, pv0, 0⟩ rfl rfl rfl
  have hprojC := elimFold_proj rows L ⟨M, c, pv0, 0⟩ ⟨M, b, pv0, 0⟩ rfl rfl rfl
  have hvec3 := elimFold_vector_xor rows L M pv0 0 b c hb hc
  have hlenB : (L.foldl (elimStep rows) ⟨M, b, pv0, 0⟩).vector.length = rows := by
    rw [elimFold_vec_length]; exact hb
  have hlenC : (L.foldl (elimStep rows) ⟨M, c, pv0, 0⟩).vector.length = rows := by
    rw [elimFold_vec_length]; exact hc
  have heB : entries01 (L.foldl (elimStep rows) ⟨M, b, pv0, 0⟩).vector :=
    elimFold_entries01 rows L _ eb
  have heC : entries01 (L.foldl (elimStep rows) ⟨M, c, pv0, 0⟩).vector :=
    elimFold_entries01 rows L _ ec
  split at hx
  · exact Option.noConfusion hx
  case isFalse hconB =>
  split at hy
  · exact Option.noConfusion hy
  case isFalse hconC =>
  have hconC' : hasContradiction (L.foldl (elimStep rows) ⟨M, b, pv0, 0⟩).matrix
      (L.foldl (elimStep rows) ⟨M, c, pv0, 0⟩).vector
      (L.foldl (elimStep rows) ⟨M, b, pv0, 0⟩).currentRow rows = false := by
    rw [← hprojC.1, ← hprojC.2.2]
    exact Bool.of_not_eq_true hconC
  have hcon3 : hasContradiction (L.foldl (elimStep rows) ⟨M, xorVec b c, pv0, 0⟩).matrix
      (L.foldl (elimStep rows) ⟨M, xorVec b c, pv0, 0⟩).vector
      (L.foldl (elimStep rows) ⟨M, xorVec b c, pv0, 0⟩).currentRow rows = false := by
    rw [hproj3.1, hproj3.2.2, hvec3]
    exact hasContradiction_xor (by omega) heB heC (Bool.of_not_eq_true hconB) hconC'
  rw [if_neg (by rw [hcon3]; exact Bool.false_ne_true)]
  rw [hvec3, hproj3.1, hproj3.2.1, hproj3.2.2]
  rw [show (List.replicate cols 0 : List Nat)
      = xorVec (List.replicate cols 0) (List.replicate cols 0) from
    (xorVec_replicate_zero cols).symm]
  rw [backSubstitute_xor _ _ _ _ _ _ _ _ (by omega) rfl]
  have hxe := Option.some.inj hx
  have hye := Option.some.inj hy
  rw [hprojC.1, hprojC.2.1, hprojC.2.2] at hye
  rw [hxe, hye]

/-! ## Toggles as column xors, and the reachability invariant (C3) -/

theorem xor_right_comm (x y z : Nat) : x ^^^ y ^^^ z = x ^^^ z ^^^ y := by
  rw [Nat.xor_assoc, Nat.xor_comm y z, ← Nat.xor_assoc]

theorem xor_cancel_pair (x y z : Nat) : (x ^^^ z) ^^^ (y ^^^ z) = x ^^^ y := by
  rw [Nat.xor_assoc, xor_rotate z y z, Nat.xor_self, Nat.xor_zero]

theorem replicate_getD (n j : Nat) : (List.replicate n (0 : Nat)).getD j 0 = 0 := by
  rcases Nat.lt_or_ge j n with h | h
  · rw [List.getD_eq_getElem _ _ (by simpa using h)]
    simp
  · rw [List.getD_eq_default _ _ (by simpa using h)]

theorem zeroBoard_length : zeroBoard.length = 25 := rfl

theorem entries01_zeroBoard : entries01 zeroBoard := by
  unfold entries01
  decide

theorem toggleMatrix_length : toggleMatrix.length = 25 := by
  rw [toggleMatrix_eq_data]
  rfl

theorem toggleZero_length (i : Nat) : (toggleCell zeroBoard i).length = 25 := by
  rw [toggleCell_length]
  rfl

theorem toggleZero_entries01 (i : Nat) : entries01 (toggleCell zeroBoard i) :=
  toggleCell_entries01 i entries01_zeroBoard

theorem xorVec_assoc {a b c : List Nat} (hab : a.length = b.length) (hbc : b.length = c.length) :
    xorVec (xorVec a b) c = xorVec a (xorVec b c) := by
  have h1 : (xorVec a b).length = c.length := by rw [xorVec_length hab]; omega
  have h2 : a.length = (xorVec b c).length := by rw [xorVec_length hbc]; omega
  apply list_ext_getD
  · rw [xorVec_length h1, xorVec_length hab, xorVec_length h2]
  · intro j _
    rw [xorVec_getD h1 j, xorVec_getD hab j, xorVec_getD h2 j, xorVec_getD hbc j,
      Nat.xor_assoc]

theorem xorVec_zero_left {a : List Nat} {n : Nat} (h : a.length = n) :
    xorVec (List.replicate n 0) a = a := by
  apply list_ext_getD
  · rw [xorVec_length (by simpa using h.symm)]
    simpa using h.symm
  · intro j _
    rw [xorVec_getD (by simpa using h.symm) j, replicate_getD, Nat.zero_xor]

theorem xorVec_zero_right {a : List Nat} {n : Nat} (h : a.length = n) :
    xorVec a (List.replicate n 0) = a := by
  apply list_ext_getD
  · rw [xorVec_length (by simpa using h)]
  · intro j _
    rw [xorVec_getD (by simpa using h) j, replicate_getD, Nat.xor_zero]

theorem xorVec_self (b : List Nat) : xorVec b b = List.replicate b.length 0 := by
  apply list_ext_getD
  · rw [xorVec_length rfl]
    simp
  · intro j _
    rw [xorVec_getD rfl j, Nat.xor_self, replicate_getD]

theorem xorVec_right_comm {a b c : List Nat} (hab : a.length = b.length)
    (hac : a.length = c.length) :
    xorVec (xorVec a b) c = xorVec (xorVec a c) b := by
  have h1 : (xorVec a b).length = c.length := by rw [xorVec_length hab]; omega
  have h2 : (xorVec a c).length = b.length := by rw [xorVec_length hac]; omega
  apply list_ext_getD
  · rw [xorVec_length h1, xorVec_length hab, xorVec_length h2, xorVec_length hac]
  · intro j _
    rw [xorVec_getD h1 j, xorVec_getD hab j, xorVec_getD h2 j, xorVec_getD hac j,
      xor_right_comm]

theorem xorVec_cancel_pair {a b c : List Nat} (hab : a.length = b.length)
    (hac : a.length = c.length) :
    xorVec (xorVec a c) (xorVec b c) = xorVec a b := by
  have h1 : (xorVec a c).length = (xorVec b c).length := by
    rw [xorVec_length hac, xorVec_length (by omega : b.length = c.length)]; omega
  apply list_ext_getD
  · rw [xorVec_length h1, xorVec_length hac, xorVec_length hab]
  · intro j _
    rw [xorVec_getD h1 j, xorVec_getD hac j, xorVec_getD (by omega : b.length = c.length) j,
      xorVec_getD hab j, xor_cancel_pair]

/-- A toggle adds the corresponding column of the toggle relation: toggling
on `b` equals xoring `b` with the single-toggle board. -/
theorem toggleCell_eq_xorVec {b : List Nat} {i : Nat} (hb : b.length = 25) (hi : i < 25) :
    toggleCell b i = xorVec b (toggleCell zeroBoard i) := by
  obtain ⟨hnd, hlt⟩ := neighborIndices_facts ⟨i, by omega⟩
  have hzl : b.length = (toggleCell zeroBoard i).length := by rw [toggleZero_length, hb]
  apply list_ext_getD
  · rw [toggleCell_length, xorVec_length hzl]
  · intro j hj
    rw [toggleCell_length] at hj
    rw [toggleCell_getD hnd (fun k hk => by rw [hb]; exact hlt k hk) j,
      xorVec_getD hzl j,
      toggleCell_getD hnd (fun k hk => by rw [zeroBoard_length]; exact hlt k hk) j,
      zeroBoard_getD j, Nat.zero_xor]

theorem foldToggle_length : ∀ (L : List Nat) (b : List Nat),
    (L.foldl toggleCell b).length = b.length := by
  intro L
  induction L with
  | nil => intro b; rfl
  | cons i L ih => intro b; rw [List.foldl_cons, ih, toggleCell_length]

theorem foldToggle_entries01 : ∀ (L : List Nat) (b : List Nat),
    entries01 b → entries01 (L.foldl toggleCell b) := by
  intro L
  induction L with
  | nil => intro b h; exact h
  | cons i L ih => intro b h; rw [List.foldl_cons]; exact ih _ (toggleCell_entries01 i h)

theorem deltaFold_length (x : List Nat) :
    ∀ (L : List Nat), (∀ i ∈ L, i < 25) → ∀ (a : List Nat), a.length = 25 →
      (L.foldl (fun acc i => if x.getD i 0 == 1 then xorVec acc (toggleCell zeroBoard i) else acc) a).length = 25 := by
  intro L
  induction L with
  | nil => intro _ a ha; exact ha
  | cons i L ih =>
    intro hall a ha
    rw [List.foldl_cons]
    by_cases hc : (x.getD i 0 == 1) = true
    · rw [if_pos hc]
      exact ih (fun j hj => hall j (List.mem_cons_of_mem _ hj)) _
        (by rw [xorVec_length (by rw [ha, toggleZero_length])]; exact ha)
    · rw [if_neg hc]
      exact ih (fun j hj => hall j (List.mem_cons_of_mem _ hj)) _ ha

theorem deltaFold_shift (x : List Nat) :
    ∀ (L : List Nat), (∀ i ∈ L, i < 25) → ∀ (a : List Nat), a.length = 25 →
      L.foldl (fun acc i => if x.getD i 0 == 1 then xorVec acc (toggleCell zeroBoard i) else acc) a
        = xorVec a
          (L.foldl (fun acc i => if x.getD i 0 == 1 then xorVec acc (toggleCell zeroBoard i) else acc) zeroBoard) := by
  intro L
  induction L with
  | nil =>
    intro _ a ha
    exact (xorVec_zero_right (n := BOARD_CELLS) ha).symm
  | cons i L ih =>
    intro hall a ha
    have hi : i < 25 := hall i (List.mem_cons_self _ _)
    have htail : ∀ j ∈ L, j < 25 := fun j hj => hall j (List.mem_cons_of_mem _ hj)
    rw [List.foldl_cons, List.foldl_cons]
    by_cases hc : (x.getD i 0 == 1) = true
    · rw [if_pos hc, if_pos hc]
      rw [ih htail _ (by rw [xorVec_length (by rw [ha, toggleZero_length])]; exact ha)]
      rw [show xorVec zeroBoard (toggleCell zeroBoard i) = toggleCell zeroBoard i from
        xorVec_zero_left (toggleZero_length i)]
      rw [ih htail (toggleCell zeroBoard i) (toggleZero_length i)]
      exact xorVec_assoc (by rw [ha, toggleZero_length])
        (by rw [toggleZero_length, deltaFold_length x L htail zeroBoard zeroBoard_length])
    · rw [if_neg hc, if_neg hc]
      exact ih htail a ha

theorem applyFold_eq (x : List Nat) :
    ∀ (L : List Nat), (∀ i ∈ L, i < 25) → ∀ (b : List Nat), b.length = 25 →
      L.foldl (fun acc i => if x.getD i 0 == 1 then toggleCell acc i else acc) b
        = xorVec b
          (L.foldl (fun acc i => if x.getD i 0 == 1 then xorVec acc (toggleCell zeroBoard i) else acc) zeroBoard) := by
  intro L
  induction L with
  | nil =>
    intro _ b hb
    exact (xorVec_zero_right (n := BOARD_CELLS) hb).symm
  | cons i L ih =>
    intro hall b hb
    have hi : i < 25 := hall i (List.mem_cons_self _ _)
    have htail : ∀ j ∈ L, j < 25 := fun j hj => hall j (List.mem_cons_of_mem _ hj)
    rw [List.foldl_cons, List.foldl_cons]
    by_cases hc : (x.getD i 0 == 1) = true
    · rw [if_pos hc, if_pos hc]
      rw [ih htail _ (by rw [toggleCell_length]; exact hb)]
      rw [toggleCell_eq_xorVec hb hi]
      rw [show xorVec zeroBoard (toggleCell zeroBoard i) = toggleCell zeroBoard i from
        xorVec_zero_left (toggleZero_length i)]
      rw [deltaFold_shift x L htail (toggleCell zeroBoard i) (toggleZero_length i)]
      exact xorVec_assoc (by rw [hb, toggleZero_length])
        (by rw [toggleZero_length, deltaFold_length x L htail zeroBoard zeroBoard_length])
    · rw [if_neg hc, if_neg hc]
      exact ih htail b hb

theorem applySolution_eq (b x : List Nat) (hb : b.length = 25) :
    applySolution b x = xorVec b (solDelta x) := by
  unfold applySolution solDelta
  exact applyFold_eq x (List.range BOARD_CELLS)
    (fun i hi => List.mem_range.mp hi) b hb

theorem solDelta_length (x : List Nat) : (solDelta x).length = 25 := by
  unfold solDelta
  exact deltaFold_length x (List.range BOARD_CELLS)
    (fun i hi => List.mem_range.mp hi) zeroBoard zeroBoard_length

theorem deltaFold_xor (x y : List Nat) (hx : x.length = 25) (hy : y.length = 25)
    (ex : entries01 x) (ey : entries01 y) :
    ∀ (L : List Nat), (∀ i ∈ L, i < 25) → ∀ (a1 a2 : List Nat),
      a1.length = 25 → a2.length = 25 →
      L.foldl (fun acc i => if (xorVec x y).getD i 0 == 1 then xorVec acc (toggleCell zeroBoard i) else acc) (xorVec a1 a2)
        = xorVec
          (L.foldl (fun acc i => if x.getD i 0 == 1 then xorVec acc (toggleCell zeroBoard i) else acc) a1)
          (L.foldl (fun acc i => if y.getD i 0 == 1 then xorVec acc (toggleCell zeroBoard i) else acc) a2) := by
  intro L
  induction L with
  | nil => intro _ a1 a2 _ _; rfl
  | cons i L ih =>
    intro hall a1 a2 ha1 ha2
    have hi : i < 25 := hall i (List.mem_cons_self _ _)
    have htail : ∀ j ∈ L, j < 25 := fun j hj => hall j (List.mem_cons_of_mem _ hj)
    rw [List.foldl_cons, List.foldl_cons, List.foldl_cons]
    have hxy : (xorVec x y).getD i 0 = x.getD i 0 ^^^ y.getD i 0 :=
      xorVec_getD (by omega) i
    have hx1 : x.getD i 0 ≤ 1 := getD_le_one ex i
    have hy1 : y.getD i 0 ≤ 1 := getD_le_one ey i
    rcases Nat.le_one_iff_eq_zero_or_eq_one.mp hx1 with hvx | hvx <;>
      rcases Nat.le_one_iff_eq_zero_or_eq_one.mp hy1 with hvy | hvy
    · -- 0, 0
      rw [if_neg (by rw [hxy, hvx, hvy]; decide), if_neg (by rw [hvx]; decide),
        if_neg (by rw [hvy]; decide)]
      exact ih htail a1 a2 ha1 ha2
    · -- 0, 1
      rw [if_pos (by rw [hxy, hvx, hvy]; decide), if_neg (by rw [hvx]; decide),
        if_pos (by rw [hvy]; decide)]
      rw [show xorVec (xorVec a1 a2) (toggleCell zeroBoard i)
          = xorVec a1 (xorVec a2 (toggleCell zeroBoard i)) from
        xorVec_assoc (by omega) (by rw [ha2, toggleZero_length])]
      exact ih htail a1 (xorVec a2 (toggleCell zeroBoard i)) ha1
        (by rw [xorVec_length (by rw [ha2, toggleZero_length])]; exact ha2)
    · -- 1, 0
      rw [if_pos (by rw [hxy, hvx, hvy]; decide), if_pos (by rw [hvx]; decide),
        if_neg (by rw [hvy]; decide)]
      rw [show xorVec (xorVec a1 a2) (toggleCell zeroBoard i)
          = xorVec (xorVec a1 (toggleCell zeroBoard i)) a2 from
        xorVec_right_comm (by omega) (by rw [ha1, toggleZero_length])]
      exact ih htail (xorVec a1 (toggleCell zeroBoard i)) a2
        (by rw [xorVec_length (by rw [ha1, toggleZero_length])]; exact ha1) ha2
    · -- 1, 1
      rw [if_neg (by rw [hxy, hvx, hvy]; decide), if_pos (by rw [hvx]; decide),
        if_pos (by rw [hvy]; decide)]
      rw [show xorVec a1 a2
          = xorVec (xorVec a1 (toggleCell zeroBoard i)) (xorVec a2 (toggleCell zeroBoard i)) from
        (xorVec_cancel_pair (by omega) (by rw [ha1, toggleZero_length])).symm]
      exact ih htail (xorVec a1 (toggleCell zeroBoard i)) (xorVec a2 (toggleCell zeroBoard i))
        (by rw [xorVec_length (by rw [ha1, toggleZero_length])]; exact ha1)
        (by rw [xorVec_length (by rw [ha2, toggleZero_length])]; exact ha2)

theorem solDelta_xor (x y : List Nat) (hx : x.length = 25) (hy : y.length = 25)
    (ex : entries01 x) (ey : entries01 y) :
    solDelta (xorVec x y) = xorVec (solDelta x) (solDelta y) := by
  unfold solDelta
  have h0 : xorVec zeroBoard zeroBoard = zeroBoard := xorVec_replicate_zero BOARD_CELLS
  have := deltaFold_xor x y hx hy ex ey (List.range BOARD_CELLS)
    (fun i hi => List.mem_range.mp hi) zeroBoard zeroBoard zeroBoard_length zeroBoard_length
  rw [h0] at this
  exact this

/-! Each of the 25 generator checks is a separate kernel evaluation (one
full elimination each). -/

set_option maxRecDepth 1000000 in
theorem genCheck_0 : genCheck 0 = true := by decide

set_option maxRecDepth 1000000 in
theorem genCheck_1 : genCheck 1 = true := by decide

set_option maxRecDepth 1000000 in
theorem genCheck_2 : genCheck 2 = true := by decide

set_option maxRecDepth 1000000 in
theorem genCheck_3 : genCheck 3 = true := by decide

set_option maxRecDepth 1000000 in
theorem genCheck_4 : genCheck 4 = true := by decide

set_option maxRecDepth 1000000 in
theorem genCheck_5 : genCheck 5 = true := by decide

set_option maxRecDepth 1000000 in
theorem genCheck_6 : genCheck 6 = true := by decide

set_option maxRecDepth 1000000 in
theorem genCheck_7 : genCheck 7 = true := by decide

set_option maxRecDepth 1000000 in
theorem genCheck_8 : genCheck 8 = true := by decide

set_option maxRecDepth 1000000 in
theorem genCheck_9 : genCheck 9 = true := by decide

set_option maxRecDepth 1000000 in
theorem genCheck_10 : genCheck 10 = true := by decide

set_option maxRecDepth 1000000 in
theorem genCheck_11 : genCheck 11 = true := by decide

set_option maxRecDepth 1000000 in
theorem genCheck_12 : genCheck 12 = true := by decide

set_option maxRecDepth 1000000 in
theorem genCheck_13 : genCheck 13 = true := by decide

set_option maxRecDepth 1000000 in
theorem genCheck_14 : genCheck 14 = true := by decide

set_option maxRecDepth 1000000 in
theorem genCheck_15 : genCheck 15 = true := by decide

set_option maxRecDepth 1000000 in
theorem genCheck_16 : genCheck 16 = true := by decide

set_option maxRecDepth 1000000 in
theorem genCheck_17 : genCheck 17 = true := by decide

set_option maxRecDepth 1000000 in
theorem genCheck_18 : genCheck 18 = true := by decide

set_option maxRecDepth 1000000 in
theorem genCheck_19 : genCheck 19 = true := by decide

set_option maxRecDepth 1000000 in
theorem genCheck_20 : genCheck 20 = true := by decide

set_option maxRecDepth 1000000 in
theorem genCheck_21 : genCheck 21 = true := by decide

set_option maxRecDepth 1000000 in
theorem genCheck_22 : genCheck 22 = true := by decide

set_option maxRecDepth 1000000 in
theorem genCheck_23 : genCheck 23 = true := by decide

set_option maxRecDepth 1000000 in
theorem genCheck_24 : genCheck 24 = true := by decide

/-- Every single-toggle board is solved by the solver, and the returned
vector's toggles reproduce it (checked for each of the 25 generators). -/
theorem genCheck_all : ∀ i : Fin 25, genCheck (i : Nat) = true := by
  intro i
  fin_cases i
  · exact genCheck_0
  · exact genCheck_1
  · exact genCheck_2
  · exact genCheck_3
  · exact genCheck_4
  · exact genCheck_5
  · exact genCheck_6
  · exact genCheck_7
  · exact genCheck_8
  · exact genCheck_9
  · exact genCheck_10
  · exact genCheck_11
  · exact genCheck_12
  · exact genCheck_13
  · exact genCheck_14
  · exact genCheck_15
  · exact genCheck_16
  · exact genCheck_17
  · exact genCheck_18
  · exact genCheck_19
  · exact genCheck_20
  · exact genCheck_21
  · exact genCheck_22
  · exact genCheck_23
  · exact genCheck_24

set_option maxRecDepth 1000000 in
/-- **C3**: for every board reachable from the all-zero board by a finite
sequence of in-range toggles, the solver returns a solution vector (never
`none`), and applying its toggles to the board clears it. -/
theorem solver_solves_reachable (l : List Nat) (hl : ∀ i ∈ l, i < BOARD_CELLS) :
    ∃ x, gaussianEliminationGF2 toggleMatrix (runToggles l) = some x ∧
      applySolution (runToggles l) x = zeroBoard := by
  unfold runToggles
  suffices H : ∀ (L : List Nat), (∀ i ∈ L, i < 25) → ∀ (b : List Nat),
      b.length = 25 → entries01 b →
      (∃ x, gaussianEliminationGF2 toggleMatrix b = some x ∧ x.length = 25 ∧
        entries01 x ∧ solDelta x = b) →
      ∃ x, gaussianEliminationGF2 toggleMatrix (L.foldl toggleCell b) = some x ∧
        x.length = 25 ∧ entries01 x ∧ solDelta x = L.foldl toggleCell b by
    have base : ∃ x, gaussianEliminationGF2 toggleMatrix zeroBoard = some x ∧
        x.length = 25 ∧ entries01 x ∧ solDelta x = zeroBoard := by
      refine ⟨List.replicate BOARD_CELLS 0, solve_zeroBoard, by decide,
        by unfold entries01; decide, by decide⟩
    obtain ⟨x, hx, hxlen, hx01, hxd⟩ :=
      H l (fun i hi => hl i hi) zeroBoard zeroBoard_length entries01_zeroBoard base
    refine ⟨x, hx, ?_⟩
    rw [applySolution_eq _ _ (by rw [foldToggle_length, zeroBoard_length]), hxd,
      xorVec_self, foldToggle_length]
    rfl
  intro L
  induction L with
  | nil =>
    intro _ b _ _ hex
    exact hex
  | cons i L ih =>
    intro hall b hb he hex
    rw [List.foldl_cons]
    have hi : i < 25 := hall i (List.mem_cons_self _ _)
    apply ih (fun j hj => hall j (List.mem_cons_of_mem _ hj)) (toggleCell b i)
      (by rw [toggleCell_length]; exact hb) (toggleCell_entries01 i he)
    obtain ⟨x, hx, hxlen, hx01, hxd⟩ := hex
    have hg : genCheck i = true := genCheck_all ⟨i, hi⟩
    unfold genCheck at hg
    cases hgi : gaussianEliminationGF2 toggleMatrix (toggleCell zeroBoard i) with
    | none =>
      rw [hgi] at hg
      exact Bool.noConfusion hg
    | some s =>
      rw [hgi] at hg
      simp only [Bool.and_eq_true, beq_iff_eq, List.all_eq_true, decide_eq_true_eq] at hg
      obtain ⟨⟨hslen, hs01⟩, hsd⟩ := hg
      refine ⟨xorVec x s, ?_, ?_, ?_, ?_⟩
      · rw [toggleCell_eq_xorVec hb hi]
        exact gauss_linear toggleMatrix b (toggleCell zeroBoard i) x s
          (by rw [hb, toggleMatrix_length]) (by rw [toggleZero_length, toggleMatrix_length])
          he (toggleZero_entries01 i) hx hgi
      · rw [xorVec_length (by rw [hxlen, hslen]; rfl)]; exact hxlen
      · exact xorVec_entries01 hx01 hs01
      · rw [solDelta_xor x s hxlen (by rw [hslen]; rfl) hx01 hs01, hxd, hsd,
          ← toggleCell_eq_xorVec hb hi]

/-- Witness for `solver_solves_reachable`: a single center toggle. -/
theorem solver_solves_reachable_witness :
    (∀ i ∈ ([12] : List Nat), i < BOARD_CELLS) ∧
      ∃ x, gaussianEliminationGF2 toggleMatrix (runToggles [12]) = some x ∧
        applySolution (runToggles [12]) x = zeroBoard :=
  ⟨by decide, solver_solves_reachable [12] (by decide)⟩

/-! ## The heap model frame property (C9) -/

theorem writeRef_mem_ne {s : Store} {r : Nat} {v : List Nat} {q : Nat} (h : q ≠ r) :
    (writeRef s r v).mem q = s.mem q := by
  show (if q = r then v else s.mem q) = s.mem q
  rw [if_neg h]

theorem allocRef_mem {s : Store} {v : List Nat} {q : Nat} (hq : q < s.next) :
    (allocRef s v).1.mem q = s.mem q := by
  show (if q = s.next then v else s.mem q) = s.mem q
  rw [if_neg (by omega)]

theorem allocRef_next (s : Store) (v : List Nat) : (allocRef s v).1.next = s.next + 1 := rfl

theorem allocRef_ref (s : Store) (v : List Nat) : (allocRef s v).2 = s.next := rfl

theorem allocCopies_spec : ∀ (refs : List Nat) (s : Store),
    s.next ≤ (allocCopies s refs).1.next ∧
      (∀ q < s.next, (allocCopies s refs).1.mem q = s.mem q) ∧
      (∀ r ∈ (allocCopies s refs).2, s.next ≤ r) ∧
      (allocCopies s refs).2.length = refs.length := by
  intro refs
  induction refs with
  | nil =>
    intro s
    exact ⟨Nat.le_refl _, fun q _ => rfl, fun r hr => absurd hr (List.not_mem_nil r), rfl⟩
  | cons r rest ih =>
    intro s
    obtain ⟨h1, h2, h3, h4⟩ := ih (allocRef s (readRef s r)).1
    simp only [allocCopies]
    refine ⟨?_, ?_, ?_, ?_⟩
    · calc s.next ≤ s.next + 1 := Nat.le_succ _
        _ = (allocRef s (readRef s r)).1.next := (allocRef_next s _).symm
        _ ≤ _ := h1
    · intro q hq
      rw [h2 q (by rw [allocRef_next]; omega), allocRef_mem hq]
    · intro r2 hr2
      rcases List.mem_cons.mp hr2 with rfl | hr2
    
      · rw [allocRef_ref]
      · have := h3 r2 hr2
        rw [allocRef_next] at this
        omega
    · simp only [List.length_cons, h4]

theorem swapAt_mem_of_lt {l : List Nat} {i j : Nat} (hi : i < l.length) (hj : j < l.length) :
    ∀ r ∈ swapAt l i j 0, r ∈ l := by
  intro r hr
  unfold swapAt at hr
  rcases List.mem_or_eq_of_mem_set hr with hr | rfl
  · rcases List.mem_or_eq_of_mem_set hr with hr | rfl
    · exact hr
    · rw [List.getD_eq_getElem _ _ hj]
      exact List.getElem_mem hj
  · rw [List.getD_eq_getElem _ _ hi]
    exact List.getElem_mem hi

theorem hClearStep_frame (col cur : Nat) (rowRefs : List Nat) (vecRef n : Nat)
    (hrr : ∀ r2 ∈ rowRefs, n ≤ r2) (hv : n ≤ vecRef) (s : Store) (r : Nat)
    (hr : r < rowRefs.length) :
    ∀ q < n, (hClearStep col cur rowRefs vecRef s r).mem q = s.mem q := by
  intro q hq
  unfold hClearStep
  split
  · have hrefmem : rowRefs.getD r 0 ∈ rowRefs := by
      rw [List.getD_eq_getElem _ _ hr]
      exact List.getElem_mem hr
    have hne1 : q ≠ rowRefs.getD r 0 := by
      have := hrr _ hrefmem
      omega
    have hne2 : q ≠ vecRef := by omega
    rw [writeRef_mem_ne hne2, writeRef_mem_ne hne1]
  · rfl

theorem hClearFold_frame (col cur : Nat) (rowRefs : List Nat) (vecRef n : Nat)
    (hrr : ∀ r2 ∈ rowRefs, n ≤ r2) (hv : n ≤ vecRef) :
    ∀ (L : List Nat), (∀ r ∈ L, r < rowRefs.length) → ∀ (s : Store), ∀ q < n,
      (L.foldl (hClearStep col cur rowRefs vecRef) s).mem q = s.mem q := by
  intro L
  induction L with
  | nil => intro _ s q _; rfl
  | cons r L ih =>
    intro hall s q hq
    rw [List.foldl_cons, ih (fun j hj => hall j (List.mem_cons_of_mem _ hj)) _ q hq,
      hClearStep_frame col cur rowRefs vecRef n hrr hv s r (hall r (List.mem_cons_self _ _)) q hq]

theorem hElimStep_frame (rows col n : Nat) (st : HElimState)
    (h1 : ∀ r ∈ st.rowRefs, n ≤ r) (h2 : st.rowRefs.length = rows) (h3 : n ≤ st.vecRef) :
    (∀ q < n, (hElimStep rows st col).store.mem q = st.store.mem q) ∧
      (∀ r ∈ (hElimStep rows st col).rowRefs, n ≤ r) ∧
      (hElimStep rows st col).rowRefs.length = rows ∧
      n ≤ (hElimStep rows st col).vecRef := by
  obtain ⟨s, rowRefs, vecRef, pv, cur⟩ := st
  dsimp only at h1 h2 h3
  unfold hElimStep
  dsimp only
  split_ifs with hcur hpiv hswap
  · exact ⟨fun q _ => rfl, h1, h2, h3⟩
  · -- swap branch
    dsimp only
    have hPle : findPivotRow (readMatrix s rowRefs) col rows cur ≤ rows :=
      findPivotRow_le _ col rows cur (le_of_lt hcur)
    have hPlt : findPivotRow (readMatrix s rowRefs) col rows cur < rows := by
      have hne : findPivotRow (readMatrix s rowRefs) col rows cur ≠ rows := by simpa using hpiv
      omega
    have hmem1 : ∀ r ∈ swapAt rowRefs cur (findPivotRow (readMatrix s rowRefs) col rows cur) 0,
        n ≤ r := fun r hr =>
      h1 r (swapAt_mem_of_lt (by omega) (by omega) r hr)
    have hlen1 : (swapAt rowRefs cur (findPivotRow (readMatrix s rowRefs) col rows cur) 0).length
        = rows := by rw [swapAt_length]; exact h2
    refine ⟨fun q hq => ?_, hmem1, hlen1, h3⟩
    rw [hClearFold_frame col cur _ vecRef n hmem1 h3 (List.range rows)
      (fun j hj => by rw [hlen1]; exact List.mem_range.mp hj) _ q hq]
    rw [writeRef_mem_ne (by omega)]
  · -- no-swap branch
    dsimp only
    refine ⟨fun q hq => ?_, h1, h2, h3⟩
    rw [hClearFold_frame col cur _ vecRef n h1 h3 (List.range rows)
      (fun j hj => by rw [h2]; exact List.mem_range.mp hj) _ q hq]
  · exact ⟨fun q _ => rfl, h1, h2, h3⟩

theorem hElimFold_frame (rows n : Nat) (L : List Nat) :
    ∀ st : HElimState,
      (∀ r ∈ st.rowRefs, n ≤ r) → st.rowRefs.length = rows → n ≤ st.vecRef →
      (∀ q < n, (L.foldl (hElimStep rows) st).store.mem q = st.store.mem q) ∧
        (∀ r ∈ (L.foldl (hElimStep rows) st).rowRefs, n ≤ r) ∧
        (L.foldl (hElimStep rows) st).rowRefs.length = rows ∧
        n ≤ (L.foldl (hElimStep rows) st).vecRef := by
  induction L with
  | nil => intro st h1 h2 h3; exact ⟨fun q _ => rfl, h1, h2, h3⟩
  | cons col L ih =>
    intro st h1 h2 h3
    rw [List.foldl_cons]
    obtain ⟨hm, hr1, hr2, hr3⟩ := hElimStep_frame rows col n st h1 h2 h3
    obtain ⟨hm', hr1', hr2', hr3'⟩ := ih (hElimStep rows st col) hr1 hr2 hr3
    exact ⟨fun q hq => by rw [hm' q hq, hm q hq], hr1', hr2', hr3'⟩

/-- **C9**: the solver operates only on freshly allocated copies of the
caller's matrix rows and target vector: every memory cell that existed
before the call (every reference below the allocation watermark) is
unchanged when `gaussianEliminationGF2Heap` returns — the shared toggle
matrix and the current board are never mutated by solving. -/
theorem gaussianEliminationGF2Heap_frame (s : Store) (inputRowRefs : List Nat)
    (inputVecRef : Nat) (q : Nat) (hq : q < s.next) :
    ((gaussianEliminationGF2Heap s inputRowRefs inputVecRef).1).mem q = s.mem q := by
  unfold gaussianEliminationGF2Heap
  dsimp only
  obtain ⟨hn1, hm1, hrefs1, hlen1⟩ := allocCopies_spec inputRowRefs s
  have hm2 : ∀ q2 < s.next,
      (allocRef (allocCopies s inputRowRefs).1
        (readRef (allocCopies s inputRowRefs).1 inputVecRef)).1.mem q2
        = (allocCopies s inputRowRefs).1.mem q2 :=
    fun q2 hq2 => allocRef_mem (by omega)
  have hvr : s.next ≤ (allocRef (allocCopies s inputRowRefs).1
      (readRef (allocCopies s inputRowRefs).1 inputVecRef)).2 := by
    rw [allocRef_ref]
    omega
  obtain ⟨hfold, _, _, _⟩ := hElimFold_frame inputRowRefs.length s.next
    (List.range (readRef (allocRef (allocCopies s inputRowRefs).1
        (readRef (allocCopies s inputRowRefs).1 inputVecRef)).1
      ((allocCopies s inputRowRefs).2.getD 0 0)).length)
    ⟨(allocRef (allocCopies s inputRowRefs).1
        (readRef (allocCopies s inputRowRefs).1 inputVecRef)).1,
      (allocCopies s inputRowRefs).2,
      (allocRef (allocCopies s inputRowRefs).1
        (readRef (allocCopies s inputRowRefs).1 inputVecRef)).2,
      List.replicate inputRowRefs.length (-1), 0⟩
    hrefs1 hlen1 hvr
  split
  · dsimp only
    rw [hfold q hq, hm2 q hq, hm1 q hq]
  · dsimp only
    rw [hfold q hq, hm2 q hq, hm1 q hq]

/-- Witness for `gaussianEliminationGF2Heap_frame` on a one-cell store. -/
theorem gaussianEliminationGF2Heap_frame_witness :
    0 < (⟨1, fun _ => [0]⟩ : Store).next ∧
      ((gaussianEliminationGF2Heap ⟨1, fun _ => [0]⟩ [0] 0).1).mem 0
        = (⟨1, fun _ => [0]⟩ : Store).mem 0 :=
  ⟨by decide, gaussianEliminationGF2Heap_frame ⟨1, fun _ => [0]⟩ [0] 0 0 (by decide)⟩

end NeuroGrid
